import Mathlib

/-!
# Verification of the spiderfire rooting and stream subsystems

A shallow embedding, in Lean 4, of the native-side state machines of the
spiderfire runtime: the `Context`/`Local` rooting discipline
(`ion/src/context.rs`, `ion/src/root/heap.rs`), the ReadableStream
default and byte-stream controllers, readers and their coordination
(`runtime/src/globals/streams/readable/{mod,controller,reader}.rs`),
the TransformStream termination path
(`runtime/src/globals/streams/transform_stream.rs`), and the event-loop
driver (`runtime/src/event_loop/mod.rs`).

Engine values (`JSVal`, `*mut JSObject`) are abstracted as small inductive
types; promises become indices into an explicit registry of promise states;
byte buffers become `List Nat`.  Each Lean definition mirrors one Rust
function and keeps its name where Lean allows it.
-/

namespace Spiderfire

/-- `State` from `readable/mod.rs`: the three states of a ReadableStream. -/
inductive StState where
  | Readable
  | Closed
  | Errored
deriving DecidableEq, Repr

/-- `ReaderKind` from `readable/reader.rs`. -/
inductive ReaderKind where
  | NoReader
  | Default
  | Byob
deriving DecidableEq, Repr

/-- `ErrorKind` from ion's exception module (the kinds used by the streams code). -/
inductive ErrKind where
  | TypeE
  | RangeE
  | NormalE
  | NoneE
deriving DecidableEq, Repr

/-- `Error::new(msg, kind)`: a native error carrying a kind and a message. -/
structure Err where
  kind : ErrKind
  msg : String
deriving DecidableEq, Repr

/-- Engine values, abstracted: chunks are integers, byte-array views are
`List Nat`, and `ReadResult { value, done }` objects are flattened into
dedicated constructors (`readResultV` for a chunk payload, `readResultBytes`
for a byte-view payload, `readResultNone` for an absent payload). -/
inductive JsVal where
  | undef
  | v (n : Int)
  | bytes (bs : List Nat)
  | errV (k : ErrKind) (msg : String)
  | readResultV (value : Int) (done : Bool)
  | readResultBytes (value : List Nat) (done : Bool)
  | readResultNone (done : Bool)
deriving DecidableEq, Repr

/-- The state of one promise in the registry. -/
inductive PromiseResult where
  | pending
  | resolved (val : JsVal)
  | rejected (val : JsVal)
deriving DecidableEq, Repr

/-- Settle promise `i` in the registry.  A promise that is already settled
stays settled (engine promises settle at most once). -/
def settle (ps : List PromiseResult) (i : Nat) (r : PromiseResult) : List PromiseResult :=
  match ps.get? i with
  | some PromiseResult.pending => ps.set i r
  | _ => ps

theorem settle_length (ps : List PromiseResult) (i : Nat) (r : PromiseResult) :
    (settle ps i r).length = ps.length := by
  unfold settle
  cases h : ps.get? i with
  | none => rfl
  | some p => cases p <;> simp

end Spiderfire

namespace Spiderfire

/-! ## Claim C10: the `desiredSize` getters

`DefaultController::get_desired_size` (controller.rs lines 481-488) and
`ByteStreamController::get_desired_size` (controller.rs lines 801-808).
The `f64` arithmetic of the source is modelled exactly over `Int`
(`high_water_mark` is integral in the claims' scenarios); `DoubleValue` /
`Int32Value` results become `some _`, `NullValue()` becomes `none`. -/

/-- `DefaultController::get_desired_size`: `Readable → high_water_mark -
queue_size`, `Closed → 0`, `Errored → null`. -/
def DefaultController.get_desired_size (state : StState) (high_water_mark : Int)
    (queue_size : Nat) : Option Int :=
  match state with
  | .Readable => some (high_water_mark - (queue_size : Int))
  | .Closed => some 0
  | .Errored => none

/-- `ByteStreamController::get_desired_size`: identical three-way match. -/
def ByteStreamController.get_desired_size (state : StState) (high_water_mark : Int)
    (queue_size : Nat) : Option Int :=
  match state with
  | .Readable => some (high_water_mark - (queue_size : Int))
  | .Closed => some 0
  | .Errored => none

/-- C10: for both controllers, `desiredSize` is `high_water_mark - queue_size`
when the stream is Readable (negative exactly when the queued sizes exceed the
high-water mark), exactly `0` when Closed, and `null` (`none`) when Errored. -/
theorem c10_desired_size (hwm : Int) (qs : Nat) :
    (DefaultController.get_desired_size .Readable hwm qs = some (hwm - (qs : Int))
      ∧ ByteStreamController.get_desired_size .Readable hwm qs = some (hwm - (qs : Int))
      ∧ ((qs : Int) > hwm ↔ ∃ d, DefaultController.get_desired_size .Readable hwm qs = some d ∧ d < 0))
    ∧ (DefaultController.get_desired_size .Closed hwm qs = some 0
      ∧ ByteStreamController.get_desired_size .Closed hwm qs = some 0)
    ∧ (DefaultController.get_desired_size .Errored hwm qs = none
      ∧ ByteStreamController.get_desired_size .Errored hwm qs = none) := by
  refine ⟨⟨rfl, rfl, ?_⟩, ⟨rfl, rfl⟩, ⟨rfl, rfl⟩⟩
  constructor
  · intro h
    exact ⟨hwm - (qs : Int), rfl, by omega⟩
  · rintro ⟨d, hd, hneg⟩
    simp only [DefaultController.get_desired_size, Option.some.injEq] at hd
    omega

end Spiderfire

namespace Spiderfire

/-! ## Claim C9: the heap holder family (`ion/src/root/heap.rs`)

The three holder types store one engine value outside the rooted arena.
Their semantics over an abstract value type: -/

/-- `Heap<T>` (heap.rs lines 31-110): a plain box, `get`/`set`/`root`. -/
structure HeapBox (T : Type) where
  value : T

def HeapBox.get {T : Type} (h : HeapBox T) : T := h.value

def HeapBox.set {T : Type} (_ : HeapBox T) (v : T) : HeapBox T := ⟨v⟩

/-- `TracedHeap<T>` (heap.rs lines 112-192): registered in the global traced
set; `set` re-registers around the write but stores the same value. -/
structure TracedHeapBox (T : Type) where
  value : T

def TracedHeapBox.get {T : Type} (h : TracedHeapBox T) : T := h.value

def TracedHeapBox.set {T : Type} (_ : TracedHeapBox T) (v : T) : TracedHeapBox T := ⟨v⟩

/-- `PermanentHeap<T>` (heap.rs lines 194-252): registered permanently. -/
structure PermanentHeapBox (T : Type) where
  value : T

def PermanentHeapBox.get {T : Type} (h : PermanentHeapBox T) : T := h.value

/-- The methods of the `impl` blocks for `Heap<T>` in heap.rs (lines 42-110,
plus the `impl_heap_root!` expansion and the `HeapPointer` impl). -/
def heapMethods : List String :=
  ["new", "get", "set", "to_traced", "from_local", "to_local", "root", "clone", "trace", "to_ptr"]

/-- The methods of the `impl` blocks for `TracedHeap<T>` in heap.rs
(lines 124-192, plus `impl_heap_root!` and `HeapPointer`). -/
def tracedHeapMethods : List String :=
  ["new", "get", "set", "from_local", "to_local", "root", "drop", "clone", "to_ptr"]

/-- The methods of the `impl` blocks for `PermanentHeap<T>` in heap.rs
(lines 210-252, plus `impl_heap_root!` and `HeapPointer`): there is no `set`. -/
def permanentHeapMethods : List String :=
  ["new", "get", "from_local", "to_local", "root", "to_ptr"]

/-- C9 counterexample: the claim says `PermanentHeap<T>` exposes a `set()`
operation, but the `impl` blocks for `PermanentHeap` declare no `set` method. -/
theorem c9_permanent_heap_no_set :
    "set" ∉ permanentHeapMethods
      ∧ "get" ∈ permanentHeapMethods ∧ "root" ∈ permanentHeapMethods := by
  decide

/-- C9 (amended): `Heap`, `TracedHeap` and `PermanentHeap` all expose `get()`
and `root(&Context)`; `Heap` and `TracedHeap` also expose `set()` (with
store-then-load semantics), but `PermanentHeap` exposes no `set()`. -/
theorem c9_heap_family_interface :
    (∀ m ∈ ["get", "set", "root"], m ∈ heapMethods ∧ m ∈ tracedHeapMethods)
    ∧ ("get" ∈ permanentHeapMethods ∧ "root" ∈ permanentHeapMethods
        ∧ "set" ∉ permanentHeapMethods)
    ∧ (∀ (h : HeapBox Int) (x : Int), (h.set x).get = x)
    ∧ (∀ (h : TracedHeapBox Int) (x : Int), (h.set x).get = x) := by
  refine ⟨by decide, by decide, fun h x => rfl, fun h x => rfl⟩

end Spiderfire

namespace Spiderfire

/-! ## Claim C5: the rooting discipline (`ion/src/context.rs`)

`Context` owns a `RootedArena` (one append-only arena per GC-value kind), a
creation-order log `order`, and drops by walking `order` in reverse, pairing
each log entry with the newest not-yet-unrooted slot of that kind
(`impl Drop for Context`, context.rs lines 275-312).  Slots are identified by
their global creation index.  `Local::new`'s linking of the fresh slot into
the engine root stack is

Modelled from the spec: `ion/src/root/local.rs` is absent from the sources;
per the spec (§3, §4.1) and the doc comment on `Context::root` ("The Local is
only unrooted when the `[Context]` is dropped"), rooting links the slot and
nothing unlinks it before Context teardown. -/

/-- `GCType` from context.rs: the fixed set of GC-value kinds. -/
inductive GCKind where
  | value
  | object
  | str
  | script
  | propertyKey
  | propertyDescriptor
  | func
  | bigInt
  | symbol
deriving DecidableEq, Repr

/-- The rooting-relevant state of a `Context`: the per-kind arenas (slot ids
in allocation order), the creation-order log, the set of slots currently
linked into the engine's native root stack, and the next fresh slot id. -/
structure ContextModel where
  arenas : GCKind → List Nat
  order : List GCKind
  linked : List Nat
  nextId : Nat

/-- A freshly constructed `Context`: empty arenas, empty log. -/
def ContextModel.fresh : ContextModel :=
  { arenas := fun _ => [], order := [], linked := [], nextId := 0 }

/-- `Context::root` (context.rs lines 160-164): allocate a slot of the value's
kind in the arena, push the kind onto the order log, and link the slot (the
linking is the spec-modelled `Local::new` part). -/
def ContextModel.root (s : ContextModel) (k : GCKind) : ContextModel × Nat :=
  ({ arenas := fun k2 => if k2 = k then s.arenas k2 ++ [s.nextId] else s.arenas k2,
     order := s.order ++ [k],
     linked := s.linked ++ [s.nextId],
     nextId := s.nextId + 1 }, s.nextId)

/-- A sequence of `Context::root` calls with the given kinds. -/
def ContextModel.rootAll (s : ContextModel) (ks : List GCKind) : ContextModel :=
  ks.foldl (fun s k => (s.root k).1) s

/-- `runRoots ks`: a fresh context after `N = ks.length` root calls. -/
def runRoots (ks : List GCKind) : ContextModel :=
  ContextModel.fresh.rootAll ks

/-- Remove the newest remaining slot of kind `k` (one step of the reversed
per-kind iterators of `impl Drop for Context`). -/
def removeLastSlot (ar : GCKind → List Nat) (k : GCKind) : GCKind → List Nat :=
  fun k2 => if k2 = k then (ar k2).dropLast else ar k2

/-- The teardown walk of `impl Drop for Context` (context.rs lines 275-312):
given the order log already reversed, repeatedly take the log's next kind and
unroot the newest remaining arena slot of that kind.  Returns the slot ids in
the order they are unrooted.  (The source `unwrap`s the iterator; an order
entry without a matching slot cannot occur.) -/
def teardownRev : List GCKind → (GCKind → List Nat) → List Nat
  | [], _ => []
  | k :: rest, ar =>
    match (ar k).getLast? with
    | none => []
    | some id => id :: teardownRev rest (removeLastSlot ar k)

/-- The full unrooting sequence of `Drop for Context`. -/
def teardownOrder (s : ContextModel) : List Nat :=
  teardownRev s.order.reverse s.arenas

/-- The linked-slot set after the first `j` unroots of the teardown walk. -/
def linkedAfter (s : ContextModel) (j : Nat) : List Nat :=
  ((teardownOrder s).take j).foldl (fun l id => l.erase id) s.linked

theorem rootAll_nextId (ks : List GCKind) :
    ∀ s : ContextModel, (s.rootAll ks).nextId = s.nextId + ks.length := by
  induction ks with
  | nil => intro s; simp [ContextModel.rootAll]
  | cons k ks ih =>
    intro s
    show ((s.root k).1.rootAll ks).nextId = _
    rw [ih]
    simp [ContextModel.root]
    omega

theorem rootAll_order (ks : List GCKind) :
    ∀ s : ContextModel, (s.rootAll ks).order = s.order ++ ks := by
  induction ks with
  | nil => intro s; simp [ContextModel.rootAll]
  | cons k ks ih =>
    intro s
    show ((s.root k).1.rootAll ks).order = _
    rw [ih]
    simp [ContextModel.root]

theorem rootAll_linked (ks : List GCKind) :
    ∀ s : ContextModel, (s.rootAll ks).linked = s.linked ++ List.range' s.nextId ks.length := by
  induction ks with
  | nil => intro s; simp [ContextModel.rootAll]
  | cons k ks ih =>
    intro s
    show ((s.root k).1.rootAll ks).linked = _
    rw [ih]
    simp [ContextModel.root, List.range'_succ]

theorem runRoots_linked (ks : List GCKind) : (runRoots ks).linked = List.range ks.length := by
  rw [runRoots, rootAll_linked, List.range_eq_range']
  rfl

theorem rootAll_append (s : ContextModel) (ks : List GCKind) (k : GCKind) :
    s.rootAll (ks ++ [k]) = ((s.rootAll ks).root k).1 := by
  simp [ContextModel.rootAll, List.foldl_append]

/-- The per-kind reversed-iterator matching of `Drop for Context` reproduces
the exact reverse of the global creation order. -/
theorem teardownRev_runRoots (ks : List GCKind) :
    teardownRev ks.reverse (runRoots ks).arenas = (List.range ks.length).reverse := by
  induction ks using List.reverseRecOn with
  | nil => rfl
  | append_singleton ks k ih =>
    have hrun : runRoots (ks ++ [k]) = ((runRoots ks).root k).1 := rootAll_append _ ks k
    have hN : (runRoots ks).nextId = ks.length := by
      rw [runRoots, rootAll_nextId]
      simp [ContextModel.fresh]
    rw [List.reverse_append, List.reverse_singleton, List.singleton_append, hrun]
    show (match ((((runRoots ks).root k).1.arenas) k).getLast? with
      | none => []
      | some id => id :: teardownRev ks.reverse
          (removeLastSlot (((runRoots ks).root k).1.arenas) k)) = _
    have harena : (((runRoots ks).root k).1.arenas) k
        = (runRoots ks).arenas k ++ [(runRoots ks).nextId] := by
      simp [ContextModel.root]
    have hremove : removeLastSlot (((runRoots ks).root k).1.arenas) k = (runRoots ks).arenas := by
      funext k2
      by_cases h : k2 = k
      · subst h
        simp [removeLastSlot, ContextModel.root]
      · simp [removeLastSlot, ContextModel.root, h]
    rw [harena, hremove, List.getLast?_append, ih, hN]
    simp [List.range_succ]

/-- C5 auxiliary: erasing `[N-1, N-2, …]` step by step from `range N` leaves
exactly the oldest slots. -/
theorem eraseFold_range (N : Nat) :
    ∀ j : Nat, (((List.range N).reverse.take j).foldl (fun l id => l.erase id) (List.range N))
      = List.range (N - j) := by
  induction N with
  | zero => intro j; simp
  | succ n ih =>
    intro j
    have hrev : (List.range (n + 1)).reverse = n :: (List.range n).reverse := by
      rw [List.range_succ, List.reverse_append]
      rfl
    cases j with
    | zero => simp
    | succ j =>
      rw [hrev]
      show ((n :: (List.range n).reverse).take (j + 1)).foldl (fun l id => l.erase id)
          (List.range (n + 1)) = _
      rw [List.take_succ_cons]
      show (((List.range n).reverse.take j)).foldl (fun l id => l.erase id)
          ((List.range (n + 1)).erase n) = _
      have herase : (List.range (n + 1)).erase n = List.range n := by
        rw [List.range_succ, List.erase_append_right _ (by simp)]
        simp
      rw [herase, ih j]
      have harith : n + 1 - (j + 1) = n - j := by omega
      rw [harith]

/-- C5: after `N` `Context::root` calls of arbitrary kinds, the Context's
teardown unroots the slots in exact reverse creation order (LIFO); after the
full walk no slot created through the Context remains linked; and after `j`
unroots the linked slots are exactly the slots of the `N - j` oldest root
calls — the still-live ones the walk has not yet reached. -/
theorem c5_context_teardown_lifo (ks : List GCKind) :
    teardownOrder (runRoots ks) = (List.range ks.length).reverse
    ∧ (∀ j : Nat, linkedAfter (runRoots ks) j = List.range (ks.length - j))
    ∧ linkedAfter (runRoots ks) ks.length = [] := by
  have horder : (runRoots ks).order = ks := by
    rw [runRoots, rootAll_order]; rfl
  have hmain : teardownOrder (runRoots ks) = (List.range ks.length).reverse := by
    rw [teardownOrder, horder, teardownRev_runRoots]
  refine ⟨hmain, ?_, ?_⟩
  · intro j
    rw [linkedAfter, hmain, runRoots_linked, eraseFold_range]
  · rw [linkedAfter, hmain, runRoots_linked, eraseFold_range]
    simp

end Spiderfire

namespace Spiderfire

/-! ## Claim C8: the event-loop driver (`runtime/src/event_loop/mod.rs`)

`EventLoop::step_inner` (mod.rs lines 94-133) runs one pass: poll the future
queue, run the microtask queue, poll the macrotask queue (each phase skipped
when its `Option` queue is absent or empty), then report and drain every
queued unhandled promise rejection; it repeats the pass while the compound
`EventLoopPollResult` of the three queue phases is `DidWork`.

A queue job is abstracted by whether it is currently runnable (`ready`: a
completed future / due macrotask) and by the new work it enqueues when run
(new jobs for each queue plus unhandled rejections, since running user code
may enqueue anywhere — the reason the driver loops).  `run_jobs` of the
microtask queue (its file is not among the sources) runs every queued job.
Recursion is by explicit fuel; the source recurses unboundedly. -/

/-- An abstract queue job: `ready` plus the jobs/rejections it enqueues. -/
inductive Job where
  | node : Bool → List Job → List Job → List Job → List Nat → Job

def Job.ready : Job → Bool
  | .node r _ _ _ _ => r

def Job.futSpawn : Job → List Job
  | .node _ f _ _ _ => f

def Job.micSpawn : Job → List Job
  | .node _ _ m _ _ => m

def Job.macSpawn : Job → List Job
  | .node _ _ _ m _ => m

def Job.rejSpawn : Job → List Nat
  | .node _ _ _ _ r => r

/-- The `EventLoop` queues (mod.rs lines 53-60): three optional job queues
plus the unhandled-rejection deque. -/
structure EvState where
  futures : Option (List Job)
  microtasks : Option (List Job)
  macrotasks : Option (List Job)
  rejections : List Nat

/-- What one pass of `step_inner` did in each phase. -/
structure PassInfo where
  futW : Bool
  micW : Bool
  macW : Bool
  rejDrained : Nat
deriving DecidableEq, Repr

def addTo (q : Option (List Job)) (xs : List Job) : Option (List Job) :=
  q.map (· ++ xs)

/-- `FutureQueue::poll_futures` under the driver's emptiness guard: completed
(`ready`) futures are removed and their results run; `DidWork` iff any
completed. -/
def pollFutures (s : EvState) : EvState × Bool :=
  match s.futures with
  | none => (s, false)
  | some q =>
    if q.isEmpty then (s, false)
    else
      let ready := q.filter Job.ready
      let rest := q.filter (fun j => !j.ready)
      ({ futures := some (rest ++ ready.flatMap Job.futSpawn),
         microtasks := addTo s.microtasks (ready.flatMap Job.micSpawn),
         macrotasks := addTo s.macrotasks (ready.flatMap Job.macSpawn),
         rejections := s.rejections ++ ready.flatMap Job.rejSpawn }, !ready.isEmpty)

/-- `MicrotaskQueue::run_jobs` under the driver's guard: every queued job
runs; `DidWork` iff the queue was non-empty. -/
def runMicrotasks (s : EvState) : EvState × Bool :=
  match s.microtasks with
  | none => (s, false)
  | some q =>
    if q.isEmpty then (s, false)
    else
      ({ futures := addTo s.futures (q.flatMap Job.futSpawn),
         microtasks := some (q.flatMap Job.micSpawn),
         macrotasks := addTo s.macrotasks (q.flatMap Job.macSpawn),
         rejections := s.rejections ++ q.flatMap Job.rejSpawn }, true)

/-- `MacrotaskQueue::poll_jobs` under the driver's guard: due (`ready`) jobs
run; `DidWork` iff any ran. -/
def pollMacrotasks (s : EvState) : EvState × Bool :=
  match s.macrotasks with
  | none => (s, false)
  | some q =>
    if q.isEmpty then (s, false)
    else
      let ready := q.filter Job.ready
      let rest := q.filter (fun j => !j.ready)
      ({ futures := addTo s.futures (ready.flatMap Job.futSpawn),
         microtasks := addTo s.microtasks (ready.flatMap Job.micSpawn),
         macrotasks := some (rest ++ ready.flatMap Job.macSpawn),
         rejections := s.rejections ++ ready.flatMap Job.rejSpawn }, !ready.isEmpty)

/-- `EventLoop::step_inner` (mod.rs lines 94-133): the three queue phases in
order, then the unconditional `while let Some(promise) =
self.unhandled_rejections.pop_front()` drain, then recurse iff the compound
result of the three queue phases `did_work()`.  Returns the final state and
the per-pass record; `none` when the fuel bound is hit. -/
def stepInner : Nat → EvState → Option (EvState × List PassInfo)
  | 0, _ => none
  | fuel + 1, s =>
    let r1 := pollFutures s
    let r2 := runMicrotasks r1.1
    let r3 := pollMacrotasks r2.1
    let reported := r3.1.rejections
    let s4 : EvState := { r3.1 with rejections := [] }
    let pass : PassInfo := ⟨r1.2, r2.2, r3.2, reported.length⟩
    if r1.2 || r2.2 || r3.2 then
      match stepInner fuel s4 with
      | none => none
      | some (sf, passes) => some (sf, pass :: passes)
    else
      some (s4, [pass])

/-- A pass in which no phase — the rejection-reporting phase included — did
any work (the claim's reading of "no phase did any work"). -/
def passAllIdle (p : PassInfo) : Prop :=
  p.futW = false ∧ p.micW = false ∧ p.macW = false ∧ p.rejDrained = 0

/-- All three queues present but empty; one unhandled rejection queued. -/
def evC8Counter : EvState := ⟨some [], some [], some [], [0]⟩

/-- C8 counterexample: with empty queues and one queued unhandled rejection,
`step_inner` performs a single pass whose rejection-reporting phase reports
one rejection — the pass did work in a phase — yet the pass is not repeated
and the step returns at once: the step does not return "only after a complete
pass in which no phase did any work", because the rejection drain does not
count toward the repeat condition. -/
theorem c8_rejection_drain_counterexample :
    stepInner 1 evC8Counter = some (⟨some [], some [], some [], []⟩, [⟨false, false, false, 1⟩])
    ∧ ¬ passAllIdle ⟨false, false, false, 1⟩ := by
  constructor
  · rfl
  · intro h
    exact absurd h.2.2.2 (by decide)

/-- C8 (amended): each `step_inner` pass runs the phases in the fixed order
futures, microtasks, macrotasks, rejection reporting; the pass is repeated
exactly when one of the three *queue* phases did work (the rejection drain
never triggers a repeat); the step returns only after a pass in which none of
the three queue phases did work; and every pass — the last included — drains
the rejection queue completely. -/
theorem c8_step_inner_phases (fuel : Nat) :
    ∀ (s r : EvState) (passes : List PassInfo), stepInner fuel s = some (r, passes) →
      passes ≠ []
      ∧ (∀ p ∈ passes.dropLast, p.futW = true ∨ p.micW = true ∨ p.macW = true)
      ∧ (∃ plast, passes.getLast? = some plast
          ∧ plast.futW = false ∧ plast.micW = false ∧ plast.macW = false)
      ∧ r.rejections = [] := by
  induction fuel with
  | zero => intro s r passes h; exact absurd h (by simp [stepInner])
  | succ fuel ih =>
    intro s r passes h
    rw [stepInner] at h
    by_cases hwork : (pollFutures s).2 || (runMicrotasks (pollFutures s).1).2
        || (pollMacrotasks (runMicrotasks (pollFutures s).1).1).2
    · rw [if_pos hwork] at h
      cases hrec : stepInner fuel { (pollMacrotasks (runMicrotasks (pollFutures s).1).1).1
          with rejections := [] } with
      | none => rw [hrec] at h; exact absurd h (by simp)
      | some pr =>
        rw [hrec] at h
        obtain ⟨sf, restPasses⟩ := pr
        simp only [Option.some.injEq, Prod.mk.injEq] at h
        obtain ⟨hr, hp⟩ := h
        obtain ⟨hne, hmid, ⟨plast, hlast, hl1, hl2, hl3⟩, hrej⟩ := ih _ _ _ hrec
        subst hr hp
        refine ⟨by simp, ?_, ⟨plast, ?_, hl1, hl2, hl3⟩, hrej⟩
        · intro p hp
          rw [List.dropLast_cons_of_ne_nil hne] at hp
          rcases List.mem_cons.mp hp with hh | ht
          · subst hh
            have h3 : (pollFutures s).2 = true ∨ (runMicrotasks (pollFutures s).1).2 = true
                ∨ (pollMacrotasks (runMicrotasks (pollFutures s).1).1).2 = true := by
              simpa [Bool.or_eq_true, or_assoc] using hwork
            simpa using h3
          · exact hmid p ht
        · cases restPasses with
          | nil => exact absurd rfl hne
          | cons a as =>
            rw [List.getLast?_cons_cons]
            exact hlast
    · rw [if_neg hwork] at h
      simp only [Option.some.injEq, Prod.mk.injEq] at h
      obtain ⟨hr, hp⟩ := h
      subst hr hp
      refine ⟨by simp, by simp, ?_, rfl⟩
      refine ⟨_, rfl, ?_, ?_, ?_⟩ <;>
        [skip; skip; skip] <;>
        simp_all [Bool.or_eq_true_iff]
  
/-- C8 witness for the amended theorem: a ready future job that queues one
unhandled rejection; two passes: [work, then idle], rejections drained. -/
theorem c8_step_inner_phases_witness :
    ∃ r passes, stepInner 2 ⟨some [Job.node true [] [] [] [3]], some [], some [], []⟩
        = some (r, passes)
      ∧ (passes ≠ []
          ∧ (∀ p ∈ passes.dropLast, p.futW = true ∨ p.micW = true ∨ p.macW = true)
          ∧ (∃ plast, passes.getLast? = some plast
              ∧ plast.futW = false ∧ plast.micW = false ∧ plast.macW = false)
          ∧ r.rejections = []) := by
  exact ⟨⟨some [], some [], some [], []⟩, [⟨true, false, false, 1⟩, ⟨false, false, false, 0⟩],
    rfl, c8_step_inner_phases 2 ⟨some [Job.node true [] [] [] [3]], some [], some [], []⟩
      ⟨some [], some [], some [], []⟩
      [⟨true, false, false, 1⟩, ⟨false, false, false, 0⟩] rfl⟩

end Spiderfire

namespace Spiderfire

/-! ## The ReadableStream machine
(`runtime/src/globals/streams/readable/{mod,controller,reader}.rs`)

One structure carries the stream, its controller (`Controller` enum) and the
attached reader's pieces (`reader_kind`, the request queue and the `closed`
promise — both `DefaultReader` and `ByobReader` have exactly these two
fields).  Promises are indices into the `promises` registry.  Chunk values of
the default controller are `Int`; byte-stream buffers are `List Nat`.

The user `pull` algorithm returns a promise; invoking it is modelled by the
ghost counter `pullCalls` plus the `pulling` flag, and the settling of its
returned promise is the separate operation `pull_settled_fulfilled` /
`pull_settled_rejected` (the registered reactions of `promise.add_reactions`
in `pull_if_needed`).  A synchronous throw of the `pull` call is subsumed by
the rejected-settle operation.  The `size` algorithm is an explicit function
`Int → Option Nat` (`none` = the call threw or the result failed the `u64`
EnforceRange conversion; both source branches call `error_internal`). -/

/-- One byte-queue entry of `ByteStreamController`: `(buffer, offset, length)`. -/
structure QEntry where
  bytes : List Nat
  off : Nat
  len : Nat
deriving DecidableEq, Repr

/-- `PullIntoDescriptor` (controller.rs lines 20-28); the element constructor
is recovered from `element` and `kind`. -/
structure PullIntoDescriptor where
  buffer : List Nat
  offset : Nat
  length : Nat
  filled : Nat
  element : Nat
  kind : ReaderKind
deriving DecidableEq, Repr

/-- The state of `DefaultController` (controller.rs lines 332-350).
`pullCalls` is a ghost counter of user-`pull` invocations. -/
structure DefaultCtrl where
  hasStart : Bool
  hasPull : Bool
  hasCancel : Bool
  sizeAlg : Option (Int → Option Nat)
  high_water_mark : Int
  started : Bool
  pulling : Bool
  pull_again : Bool
  close_requested : Bool
  queue : List (Int × Nat)
  queue_size : Nat
  pullCalls : Nat

/-- The state of `ByteStreamController` (controller.rs lines 590-609). -/
structure ByteCtrl where
  hasStart : Bool
  hasPull : Bool
  hasCancel : Bool
  auto_allocate_chunk_size : Nat
  high_water_mark : Int
  started : Bool
  pulling : Bool
  pull_again : Bool
  close_requested : Bool
  pending_descriptors : List PullIntoDescriptor
  queue : List QEntry
  queue_size : Nat
  pullCalls : Nat

/-- The `Controller` enum (controller.rs lines 93-96). -/
inductive Ctrl where
  | defaultC (c : DefaultCtrl)
  | byteC (c : ByteCtrl)

/-- `ReadableStream` (mod.rs lines 61-71) together with the attached reader's
`requests` and `closed` promise and the promise registry. -/
structure RStream where
  controller : Ctrl
  reader_kind : ReaderKind
  requests : List Nat
  closed : Nat
  state : StState
  disturbed : Bool
  stored_error : Option JsVal
  promises : List PromiseResult

def RStream.setDefaultCtrl (s : RStream) (c : DefaultCtrl) : RStream :=
  { s with controller := .defaultC c }

def RStream.setByteCtrl (s : RStream) (c : ByteCtrl) : RStream :=
  { s with controller := .byteC c }

/-- Allocate a fresh pending promise; returns its id. -/
def newPromise (s : RStream) : RStream × Nat :=
  ({ s with promises := s.promises ++ [.pending] }, s.promises.length)

/-- Settle promise `i` of the stream's registry. -/
def settleIn (s : RStream) (i : Nat) (r : PromiseResult) : RStream :=
  { s with promises := settle s.promises i r }

/-- `ReadableStream::get_locked` (mod.rs lines 212-215). -/
def ReadableStream.get_locked (s : RStream) : Bool :=
  s.reader_kind != ReaderKind.NoReader

/-- `ReadableStream::close` (mod.rs lines 217-240): Readable only; moves to
Closed, resolves the reader's `closed` promise with undefined and every
outstanding read request with `{done: true}`. -/
def ReadableStream.close (s : RStream) : Except Err RStream :=
  if s.state != StState.Readable then .error ⟨.NoneE, "Cannot Close Stream"⟩
  else
    let s := { s with state := .Closed }
    match s.reader_kind with
    | .NoReader => .ok s
    | _ =>
      let s := settleIn s s.closed (.resolved .undef)
      let s := s.requests.foldl (fun s r => settleIn s r (.resolved (.readResultNone true))) s
      .ok { s with requests := [] }

/-- `ReadableStream::error` (mod.rs lines 242-263): Readable only; moves to
Errored, stores the error, rejects the `closed` promise and every outstanding
read request with it. -/
def ReadableStream.error (s : RStream) (e : JsVal) : Except Err RStream :=
  if s.state != StState.Readable then .error ⟨.NoneE, "Cannot Error Stream"⟩
  else
    let s := { s with state := .Errored, stored_error := some e }
    match s.reader_kind with
    | .NoReader => .ok s
    | _ =>
      let s := settleIn s s.closed (.rejected e)
      let s := s.requests.foldl (fun s r => settleIn s r (.rejected e)) s
      .ok { s with requests := [] }

end Spiderfire

namespace Spiderfire

/-! ### DefaultController operations (controller.rs lines 352-556) -/

/-- `DefaultController::can_close_or_enqueue`: Readable and close not
requested. -/
def DefaultController.can_close_or_enqueue (s : RStream) (c : DefaultCtrl) : Bool :=
  decide (s.state = .Readable) && !c.close_requested

/-- `DefaultController::should_call_pull` (controller.rs lines 398-410). -/
def DefaultController.should_call_pull (s : RStream) (c : DefaultCtrl) : Bool :=
  if !(DefaultController.can_close_or_enqueue s c) || !c.started then false
  else if s.reader_kind = .Default && s.requests.length > 0 then true
  else decide (s.state = .Readable) && decide ((c.queue_size : Int) < c.high_water_mark)

/-- `DefaultController::pull_if_needed` (controller.rs lines 412-463): no-op
unless `should_call_pull`; while a pull is in flight only `pull_again` is
set; otherwise `pulling` is raised and, when a user `pull` algorithm exists,
it is invoked (ghost counter `pullCalls`). -/
def DefaultController.pull_if_needed (s : RStream) : RStream :=
  match s.controller with
  | .byteC _ => s
  | .defaultC c =>
    if !(DefaultController.should_call_pull s c) then s
    else if c.pulling then s.setDefaultCtrl { c with pull_again := true }
    else
      let c := { c with pulling := true }
      if c.hasPull then s.setDefaultCtrl { c with pullCalls := c.pullCalls + 1 }
      else s.setDefaultCtrl c

/-- The fulfilled reaction registered on the user pull's returned promise
(controller.rs lines 441-453): clear `pulling`; consume `pull_again` into one
follow-up `pull_if_needed`. -/
def DefaultController.pull_settled_fulfilled (s : RStream) : RStream :=
  match s.controller with
  | .byteC _ => s
  | .defaultC c =>
    let c := { c with pulling := false }
    if c.pull_again then
      DefaultController.pull_if_needed (s.setDefaultCtrl { c with pull_again := false })
    else s.setDefaultCtrl c

/-- `DefaultController::error_internal` (controller.rs lines 465-479): when
Readable, clear the queue, drop the `pull`/`cancel`/`size` algorithm
references and error the stream. -/
def DefaultController.error_internal (s : RStream) (e : JsVal) : Except Err RStream :=
  match s.controller with
  | .byteC _ => .ok s
  | .defaultC c =>
    if s.state = .Readable then
      let c := { c with queue := [], queue_size := 0,
                        hasPull := false, hasCancel := false, sizeAlg := none }
      ReadableStream.error (s.setDefaultCtrl c) e
    else .ok s

/-- The rejected reaction registered on the user pull's returned promise
(controller.rs lines 454-459): `error_internal`. -/
def DefaultController.pull_settled_rejected (s : RStream) (e : JsVal) : Except Err RStream :=
  DefaultController.error_internal s e

/-- `DefaultController::close` (controller.rs lines 490-505): guarded by
`can_close_or_enqueue`; **sets `close_requested` only when the queue is
empty** and then unconditionally closes the stream at once. -/
def DefaultController.close (s : RStream) : Except Err RStream :=
  match s.controller with
  | .byteC _ => .ok s
  | .defaultC c =>
    if DefaultController.can_close_or_enqueue s c then
      let c := if c.queue.isEmpty then { c with close_requested := true } else c
      let c := { c with hasPull := false, hasCancel := false, sizeAlg := none }
      ReadableStream.close (s.setDefaultCtrl c)
    else .error ⟨.TypeE, "Cannot Close Stream"⟩

/-- `DefaultController::enqueue` (controller.rs lines 507-551): if a default
reader holds an outstanding request, resolve it directly (bypassing the
queue); otherwise compute the chunk's size (weight 1 without a size
algorithm), push `(chunk, size)` and `pull_if_needed`; a failing size
computation errors the controller instead. -/
def DefaultController.enqueue (s : RStream) (chunk : Int) : Except Err RStream :=
  match s.controller with
  | .byteC _ => .ok s
  | .defaultC c =>
    if DefaultController.can_close_or_enqueue s c then
      match s.reader_kind, s.requests with
      | .Default, r :: rest =>
        .ok (settleIn { s with requests := rest } r (.resolved (.readResultV chunk false)))
      | _, _ =>
        let sizeRes : Option Nat :=
          match c.sizeAlg with
          | some f => f chunk
          | none => some 1
        match sizeRes with
        | some size =>
          let c := { c with queue := c.queue ++ [(chunk, size)], queue_size := c.queue_size + size }
          .ok (DefaultController.pull_if_needed (s.setDefaultCtrl c))
        | none => DefaultController.error_internal s (.errV .RangeE "size computation failed")
    else .error ⟨.TypeE, "Cannot Enqueue to Stream"⟩

/-- `DefaultController::error` (controller.rs lines 553-555). -/
def DefaultController.error (s : RStream) (e : Option JsVal) : Except Err RStream :=
  DefaultController.error_internal s (e.getD .undef)

end Spiderfire

namespace Spiderfire

/-! ### ByteStreamController operations (controller.rs lines 611-953) -/

/-- `ByteStreamController::can_close_or_enqueue`. -/
def ByteStreamController.can_close_or_enqueue (s : RStream) (c : ByteCtrl) : Bool :=
  decide (s.state = .Readable) && !c.close_requested

/-- `ByteStreamController::should_call_pull` (controller.rs lines 662-682):
like the default controller's, but requests of either reader kind count. -/
def ByteStreamController.should_call_pull (s : RStream) (c : ByteCtrl) : Bool :=
  if !(ByteStreamController.can_close_or_enqueue s c) || !c.started then false
  else if (s.reader_kind = .Default || s.reader_kind = .Byob) && s.requests.length > 0 then true
  else decide (s.state = .Readable) && decide ((c.queue_size : Int) < c.high_water_mark)

/-- `ByteStreamController::pull_if_needed` (controller.rs lines 684-730). -/
def ByteStreamController.pull_if_needed (s : RStream) : RStream :=
  match s.controller with
  | .defaultC _ => s
  | .byteC c =>
    if ByteStreamController.should_call_pull s c then
      if c.pulling then s.setByteCtrl { c with pull_again := true }
      else
        let c := { c with pulling := true }
        if c.hasPull then s.setByteCtrl { c with pullCalls := c.pullCalls + 1 }
        else s.setByteCtrl c
    else s

/-- Fulfilled reaction of the byte controller's pull promise
(controller.rs lines 707-719). -/
def ByteStreamController.pull_settled_fulfilled (s : RStream) : RStream :=
  match s.controller with
  | .defaultC _ => s
  | .byteC c =>
    let c := { c with pulling := false }
    if c.pull_again then
      ByteStreamController.pull_if_needed (s.setByteCtrl { c with pull_again := false })
    else s.setByteCtrl c

/-- `ByteStreamController::error_internal` (controller.rs lines 785-799). -/
def ByteStreamController.error_internal (s : RStream) (e : JsVal) : Except Err RStream :=
  match s.controller with
  | .defaultC _ => .ok s
  | .byteC c =>
    if s.state = .Readable then
      let c := { c with pending_descriptors := [], queue := [], queue_size := 0,
                        hasPull := false, hasCancel := false }
      ReadableStream.error (s.setByteCtrl c) e
    else .ok s

/-- `ByteStreamController::close` (controller.rs lines 810-831): guarded by
`can_close_or_enqueue`; defers by `close_requested` when bytes remain queued;
a partially filled leading pull-into descriptor errors the controller. -/
def ByteStreamController.close (s : RStream) : Except Err RStream :=
  match s.controller with
  | .defaultC _ => .ok s
  | .byteC c =>
    if ByteStreamController.can_close_or_enqueue s c then
      let c := if c.queue_size > 0 then { c with close_requested := true } else c
      let headFilled : Bool :=
        match c.pending_descriptors with
        | d :: _ => decide (d.filled > 0)
        | [] => false
      if headFilled then
        match ByteStreamController.error_internal (s.setByteCtrl c)
            (.errV .TypeE "Pending Pull Into Not Empty") with
        | .error e2 => .error e2
        | .ok _ => .error ⟨.TypeE, "Pending Pull Into Not Empty"⟩
      else
        let c := { c with hasPull := false, hasCancel := false }
        ReadableStream.close (s.setByteCtrl c)
    else .error ⟨.TypeE, "Cannot Close Byte Stream Controller"⟩

end Spiderfire

namespace Spiderfire

/-! ### `fill_pull_into_descriptor` (controller.rs lines 732-783) and the
byte-stream enqueue / read paths -/

/-- Overwrite `buf` at position `p` with `seg` (`ArrayBufferCopyData` into the
descriptor's buffer). -/
def writeAt (buf : List Nat) (p : Nat) (seg : List Nat) : List Nat :=
  buf.take p ++ seg ++ buf.drop (p + seg.length)

/-- The `while remaining > 0` loop of `fill_pull_into_descriptor`: copy from
the queue's front entry into the descriptor buffer, popping the entry when
wholly consumed or advancing its `(offset, length)` window otherwise.  The
source loop's variant is `remaining`; fuel makes the recursion structural
(an empty queue with `remaining > 0`, impossible under the queue-size
invariant, performs the source's bookkeeping with no byte copied).
Arguments: fuel, queue, queue_size, descriptor buffer, descriptor offset,
filled, remaining; result: queue, queue_size, buffer, filled. -/
def fillLoop : Nat → List QEntry → Nat → List Nat → Nat → Nat → Nat →
    List QEntry × Nat × List Nat × Nat
  | 0, q, qs, buf, _, filled, _ => (q, qs, buf, filled)
  | fuel + 1, q, qs, buf, dpos, filled, remaining =>
    if remaining = 0 then (q, qs, buf, filled)
    else
      match q with
      | [] => ([], qs - remaining, buf, filled + remaining)
      | e :: rest =>
        let copy := min remaining e.len
        let seg := (e.bytes.drop e.off).take copy
        let buf2 := writeAt buf (dpos + filled) seg
        let q2 := if copy = e.len then rest
                  else { e with off := e.off + copy, len := e.len - copy } :: rest
        fillLoop fuel q2 (qs - copy) buf2 dpos (filled + copy) (remaining - copy)

/-- `ByteStreamController::fill_pull_into_descriptor` (controller.rs lines
732-783): compute the element-aligned copy target, run the loop, and report
whether at least one whole element boundary was newly reached (`ready`). -/
def ByteStreamController.fill_pull_into_descriptor (c : ByteCtrl) (d : PullIntoDescriptor) :
    ByteCtrl × PullIntoDescriptor × Bool :=
  let aligned := d.filled - d.filled % d.element
  let max_copy := min c.queue_size (d.length - d.filled)
  let max_aligned := d.filled + max_copy - (d.filled + max_copy) % d.element
  let ready := decide (aligned < max_aligned)
  let remaining := if aligned < max_aligned then max_aligned - d.filled else max_copy
  let r := fillLoop (remaining + 1) c.queue c.queue_size d.buffer d.offset d.filled remaining
  ({ c with queue := r.1, queue_size := r.2.1 },
   { d with buffer := r.2.2.1, filled := r.2.2.2 }, ready)

/-- `PullIntoDescriptor::commit` (controller.rs lines 46-69): build the view
of `filled / element` whole elements at the descriptor's byte offset, pop the
reader's front request and settle it with `ReadResult { value: view, done }`
(resolved when the stream is not Closed, rejected when it is). -/
def PullIntoDescriptor.commit (s : RStream) (d : PullIntoDescriptor) : RStream × Option Err :=
  let done := decide (s.state = .Closed)
  let viewBytes := (d.buffer.drop d.offset).take (d.element * (d.filled / d.element))
  match s.requests with
  | [] => (s, some ⟨.NormalE, "no outstanding request"⟩)
  | r :: rest =>
    let s := { s with requests := rest }
    let result := JsVal.readResultBytes viewBytes done
    if !done then (settleIn s r (.resolved result), none)
    else (settleIn s r (.rejected result), none)

/-- The `while let Some(request) = reader.requests.pop_front()` loop of
`ByteStreamController::enqueue`'s default-reader arm (controller.rs lines
882-907): serve queued entries to outstanding requests; when the byte queue
is exhausted, serve the incoming chunk itself directly (`complete`).
Returns (state, complete, error). -/
def ByteStreamController.serveLoop : Nat → RStream → List Nat → RStream × Bool × Option Err
  | 0, s, _ => (s, false, none)
  | fuel + 1, s, chunk =>
    match s.controller with
    | .defaultC _ => (s, false, none)
    | .byteC c =>
      match s.requests with
      | [] => (s, false, none)
      | r :: rest =>
        let s := { s with requests := rest }
        if c.queue_size = 0 then
          let c := { c with pending_descriptors := c.pending_descriptors.tail }
          let s := s.setByteCtrl c
          (settleIn s r (.resolved (.readResultBytes chunk false)), true, none)
        else
          match c.queue with
          | [] => (s, false, some ⟨.NormalE, "queue_size positive with empty queue"⟩)
          | e :: qrest =>
            let c2 := { c with queue := qrest, queue_size := c.queue_size - e.len }
            let s2 := s.setByteCtrl c2
            let stepRes : Except Err RStream :=
              if c2.queue_size = 0 && c2.close_requested then ByteStreamController.close s2
              else .ok (ByteStreamController.pull_if_needed s2)
            match stepRes with
            | .error err => (s2, false, some err)
            | .ok s3 =>
              let s3 := settleIn s3 r
                (.resolved (.readResultBytes ((e.bytes.drop e.off).take e.len) false))
              ByteStreamController.serveLoop fuel s3 chunk

/-- The `while !self.pending_descriptors.is_empty()` loop of
`ByteStreamController::enqueue`'s BYOB arm (controller.rs lines 920-936):
fill the leading descriptor from the byte queue; when it becomes `ready`,
pop and commit it; stop when the queue is drained or no descriptor remains.
Each iteration pops a descriptor or drains the queue, so
`pending_descriptors.length + 2` fuel suffices. -/
def ByteStreamController.processDescriptors : Nat → RStream → RStream × Option Err
  | 0, s => (s, none)
  | fuel + 1, s =>
    match s.controller with
    | .defaultC _ => (s, none)
    | .byteC c =>
      match c.pending_descriptors with
      | [] => (s, none)
      | d :: rest =>
        if c.queue_size = 0 then (s, none)
        else
          let r := ByteStreamController.fill_pull_into_descriptor c d
          let c2 := r.1
          let d2 := r.2.1
          let ready := r.2.2
          if ready then
            let c3 := { c2 with pending_descriptors := rest }
            match PullIntoDescriptor.commit (s.setByteCtrl c3) d2 with
            | (s2, some err) => (s2, some err)
            | (s2, none) => ByteStreamController.processDescriptors fuel s2
          else
            ByteStreamController.processDescriptors fuel
              (s.setByteCtrl { c2 with pending_descriptors := d2 :: rest })

/-- `ByteStreamController::enqueue` (controller.rs lines 833-948).  A chunk
is its byte contents (the model's `transfer_array_buffer` is the identity on
contents).  Empty chunks are type errors; a stale partially-filled leading
descriptor of a released reader (`kind == None`) is cloned back onto the
queue; then the chunk is served to outstanding default-reader requests,
queued and matched against BYOB descriptors, or simply queued. -/
def ByteStreamController.enqueue (s : RStream) (chunk : List Nat) : Except Err RStream :=
  match s.controller with
  | .defaultC _ => .ok s
  | .byteC c =>
    if chunk.length = 0 then .error ⟨.TypeE, "Chunk must contain bytes."⟩
    else if ByteStreamController.can_close_or_enqueue s c then
      let shift : Bool :=
        match c.pending_descriptors with
        | d :: _ => d.kind = .NoReader && d.filled > 0
        | [] => false
      let c :=
        if shift then
          match c.pending_descriptors with
          | d :: rest =>
            { c with queue := c.queue ++ [⟨(d.buffer.drop d.offset).take d.length, 0, d.length⟩],
                     queue_size := c.queue_size + d.length,
                     pending_descriptors := rest }
          | [] => c
        else c
      let s := s.setByteCtrl c
      match s.reader_kind with
      | .Default =>
        match ByteStreamController.serveLoop (s.requests.length + 1) s chunk with
        | (_, _, some err) => .error err
        | (s2, complete, none) =>
          match s2.controller with
          | .defaultC _ => .ok s2
          | .byteC c2 =>
            let s3 := if complete then s2
              else s2.setByteCtrl { c2 with queue := c2.queue ++ [⟨chunk, 0, chunk.length⟩],
                                            queue_size := c2.queue_size + chunk.length }
            .ok (ByteStreamController.pull_if_needed s3)
      | .Byob =>
        let c := { c with queue := c.queue ++ [⟨chunk, 0, chunk.length⟩],
                          queue_size := c.queue_size + chunk.length }
        match ByteStreamController.processDescriptors (c.pending_descriptors.length + 2)
            (s.setByteCtrl c) with
        | (_, some err) => .error err
        | (s2, none) => .ok (ByteStreamController.pull_if_needed s2)
      | .NoReader =>
        let c := { c with queue := c.queue ++ [⟨chunk, 0, chunk.length⟩],
                          queue_size := c.queue_size + chunk.length }
        .ok (ByteStreamController.pull_if_needed (s.setByteCtrl c))
    else .error ⟨.TypeE, "Cannot Enqueue to Stream"⟩

/-- `ByteStreamController::error` (controller.rs lines 950-952). -/
def ByteStreamController.error (s : RStream) (e : Option JsVal) : Except Err RStream :=
  ByteStreamController.error_internal s (e.getD .undef)

end Spiderfire

namespace Spiderfire

/-! ### `Controller::pull` and the readers (controller.rs lines 213-314,
reader.rs, mod.rs lines 155-289) -/

/-- `Controller::pull` (controller.rs lines 213-299), serving one read
request.  Default arm: pop a queued chunk (note: the source does **not**
decrement `queue_size` here), close on a drained `close_requested` queue or
`pull_if_needed`, and resolve the request; with an empty queue, park the
request on the default reader and `pull_if_needed`.  Byte arm: requires a
default reader; pop a byte entry or park the request, auto-allocating a
pull-into descriptor when configured. -/
def Controller.pull (s : RStream) (request : Nat) : Except Err RStream :=
  match s.controller with
  | .defaultC c =>
    match c.queue with
    | (chunk, _) :: rest =>
      let step : Except Err RStream :=
        if c.close_requested && rest.isEmpty then
          let c := { c with queue := rest, hasPull := false, hasCancel := false, sizeAlg := none }
          ReadableStream.close (s.setDefaultCtrl c)
        else
          .ok (DefaultController.pull_if_needed (s.setDefaultCtrl { c with queue := rest }))
      match step with
      | .error e => .error e
      | .ok s2 => .ok (settleIn s2 request (.resolved (.readResultV chunk false)))
    | [] =>
      match s.reader_kind with
      | .Default =>
        if s.state != StState.Readable then
          .error ⟨.NoneE, "Cannot Add Read Request to Read Queue"⟩
        else
          let s := { s with requests := s.requests ++ [request] }
          .ok (DefaultController.pull_if_needed s)
      | _ => .ok s
  | .byteC c =>
    if s.reader_kind != ReaderKind.Default then
      .error ⟨.TypeE, "Reader should have default reader."⟩
    else if c.queue_size > 0 then
      match c.queue with
      | [] => .error ⟨.NormalE, "queue_size positive with empty queue"⟩
      | e :: qrest =>
        let c := { c with queue := qrest, queue_size := c.queue_size - e.len }
        let s1 := s.setByteCtrl c
        let step : Except Err RStream :=
          if c.queue_size = 0 && c.close_requested then ByteStreamController.close s1
          else .ok (ByteStreamController.pull_if_needed s1)
        match step with
        | .error err => .error err
        | .ok s2 =>
          .ok (settleIn s2 request
            (.resolved (.readResultBytes ((e.bytes.drop e.off).take e.len) false)))
    else
      let c :=
        if c.auto_allocate_chunk_size != 0 then
          { c with pending_descriptors := c.pending_descriptors ++
              [⟨List.replicate c.auto_allocate_chunk_size 0, 0,
                c.auto_allocate_chunk_size, 0, 1, .Default⟩] }
        else c
      let s := s.setByteCtrl c
      let s := { s with requests := s.requests ++ [request] }
      .ok (ByteStreamController.pull_if_needed s)

/-- `Controller::release` (controller.rs lines 301-314): the byte controller
keeps only its leading pull-into descriptor. -/
def Controller.release (s : RStream) : RStream :=
  match s.controller with
  | .defaultC _ => s
  | .byteC c =>
    match c.pending_descriptors with
    | [] => s
    | d :: _ => s.setByteCtrl { c with pending_descriptors := [d] }

/-- The `closed` promise a fresh reader creates (reader.rs lines 83-99 and
255-271): pending while Readable, pre-resolved when Closed, pre-rejected with
the stored error when Errored. -/
def newClosedPromise (s : RStream) : RStream × Nat :=
  let (s, p) := newPromise s
  match s.state with
  | .Readable => (s, p)
  | .Closed => (settleIn s p (.resolved .undef), p)
  | .Errored => (settleIn s p (.rejected (s.stored_error.getD .undef)), p)

/-- `DefaultReader::new` (reader.rs lines 73-106): fails on a locked stream. -/
def DefaultReader.new (s : RStream) : Except Err (RStream × Nat) :=
  if ReadableStream.get_locked s then
    .error ⟨.TypeE, "Cannot create DefaultReader from locked stream."⟩
  else .ok (newClosedPromise s)

/-- `ByobReader::new` (reader.rs lines 241-278): fails on a locked stream and
on a stream whose controller is the Default controller. -/
def ByobReader.new (s : RStream) : Except Err (RStream × Nat) :=
  if ReadableStream.get_locked s then
    .error ⟨.TypeE, "Cannot create BYOBReader from locked stream."⟩
  else
    match s.controller with
    | .defaultC _ => .error ⟨.TypeE, "Cannot create BYOBReader from DefaultController"⟩
    | .byteC _ => .ok (newClosedPromise s)

/-- `ReadableStream::getReader` (mod.rs lines 183-210): mode `"byob"` goes
through `ByobReader::new` (whose checks reject locked streams and Default
controllers); any other explicit mode is a type error; no mode re-checks the
lock and attaches a default reader. -/
def ReadableStream.getReader (s : RStream) (mode : Option String) : Except Err RStream :=
  match mode with
  | some m =>
    if m = "byob" then
      match ByobReader.new s with
      | .error e => .error e
      | .ok (s, p) => .ok { s with reader_kind := .Byob, closed := p, requests := [] }
    else .error ⟨.TypeE, "Mode must be 'byob' or must not exist."⟩
  | none =>
    if ReadableStream.get_locked s then
      .error ⟨.TypeE, "New readers cannot be initialised for locked streams."⟩
    else
      match DefaultReader.new s with
      | .error e => .error e
      | .ok (s, p) => .ok { s with reader_kind := .Default, closed := p, requests := [] }

/-- `DefaultReader::read` (reader.rs lines 122-154): on a released reader a
promise rejected with a type error; otherwise mark the stream disturbed,
make the request promise and dispatch on the state — Readable delegates to
`Controller::pull`, Closed resolves `{done: true}`, Errored rejects with the
stored error.  Returns the promise id (or the propagated error). -/
def DefaultReader.read (s : RStream) : RStream × Except Err Nat :=
  if s.reader_kind != ReaderKind.Default then
    let (s, p) := newPromise s
    (settleIn s p (.rejected (.errV .TypeE "Reader has already been released.")), .ok p)
  else
    let s := { s with disturbed := true }
    let (s, p) := newPromise s
    match s.state with
    | .Readable =>
      match Controller.pull s p with
      | .ok s2 => (s2, .ok p)
      | .error e => (s, .error e)
    | .Closed => (settleIn s p (.resolved (.readResultNone true)), .ok p)
    | .Errored => (settleIn s p (.rejected (s.stored_error.getD .undef)), .ok p)

/-- `DefaultReader::releaseLock` (reader.rs lines 156-185): reject the
reader's `closed` promise (a fresh replacement when the stream has already
left Readable), detach the reader, `Controller::release`, and reject every
outstanding read request. -/
def DefaultReader.releaseLock (s : RStream) : Except Err RStream :=
  if s.reader_kind != ReaderKind.Default then
    .error ⟨.TypeE, "Reader has already been released."⟩
  else
    let (s, closedP) :=
      match s.state with
      | .Readable => (s, s.closed)
      | _ =>
        let (s2, p) := newPromise s
        ({ s2 with closed := p }, p)
    let s := settleIn s closedP (.rejected (.errV .TypeE "Released Reader"))
    let s := { s with reader_kind := .NoReader }
    let s := Controller.release s
    let s := s.requests.foldl
      (fun s r => settleIn s r (.rejected (.errV .TypeE "Reader has been released."))) s
    .ok { s with requests := [] }

/-- `ByobReader::releaseLock` (reader.rs lines 419-448): identical shape. -/
def ByobReader.releaseLock (s : RStream) : Except Err RStream :=
  if s.reader_kind != ReaderKind.Byob then
    .error ⟨.TypeE, "Reader has already been released."⟩
  else
    let (s, closedP) :=
      match s.state with
      | .Readable => (s, s.closed)
      | _ =>
        let (s2, p) := newPromise s
        ({ s2 with closed := p }, p)
    let s := settleIn s closedP (.rejected (.errV .TypeE "Released Reader"))
    let s := { s with reader_kind := .NoReader }
    let s := Controller.release s
    let s := s.requests.foldl
      (fun s r => settleIn s r (.rejected (.errV .TypeE "Reader has been released."))) s
    .ok { s with requests := [] }

end Spiderfire

namespace Spiderfire

/-- `ByobReader::read` (reader.rs lines 294-417).  The supplied view is
`viewLen` elements of `element` bytes at buffer offset 0 (its backing buffer
is exactly the view's bytes); empty views/buffers are type errors.  The
request promise is created, the stream marked disturbed; an Errored stream
rejects at once.  Against the byte controller: queue behind existing
pull-into descriptors; resolve empty-done when Closed; fill from queued
bytes when available (closing or pulling as the accounting dictates,
rejecting when close was requested but no whole element is available);
otherwise park the descriptor and request. -/
def ByobReader.read (s : RStream) (viewLen element : Nat) : RStream × Except Err Nat :=
  if s.reader_kind != ReaderKind.Byob then
    let (s, p) := newPromise s
    (settleIn s p (.rejected (.errV .TypeE "Reader has already been released.")), .ok p)
  else if viewLen = 0 then (s, .error ⟨.TypeE, "Buffer must contain bytes."⟩)
  else if viewLen * element = 0 then (s, .error ⟨.TypeE, "Buffer must contain bytes."⟩)
  else
    let (s, p) := newPromise s
    let s := { s with disturbed := true }
    if s.state = .Errored then
      (settleIn s p (.rejected (s.stored_error.getD .undef)), .ok p)
    else
      match s.controller with
      | .defaultC _ => (s, .ok p)
      | .byteC c =>
        let d : PullIntoDescriptor :=
          ⟨List.replicate (viewLen * element) 0, 0, viewLen * element, 0, element, .Byob⟩
        if !c.pending_descriptors.isEmpty then
          let s := s.setByteCtrl { c with pending_descriptors := c.pending_descriptors ++ [d] }
          let s := if s.state = .Readable then { s with requests := s.requests ++ [p] } else s
          (s, .ok p)
        else if s.state = .Closed then
          (settleIn s p (.resolved (.readResultBytes [] true)), .ok p)
        else if c.queue_size > 0 then
          let r := ByteStreamController.fill_pull_into_descriptor c d
          let c2 := r.1
          let d2 := r.2.1
          let ready := r.2.2
          if ready then
            let viewBytes := (d2.buffer.drop d2.offset).take (d2.element * (d2.filled / d2.element))
            let s1 := s.setByteCtrl c2
            let step : Except Err RStream :=
              if c2.queue_size = 0 && c2.close_requested then ByteStreamController.close s1
              else .ok (ByteStreamController.pull_if_needed s1)
            match step with
            | .error e => (s1, .error e)
            | .ok s2 => (settleIn s2 p (.resolved (.readResultBytes viewBytes false)), .ok p)
          else if c.close_requested then
            (settleIn (s.setByteCtrl c2) p
              (.rejected (.errV .TypeE "Stream closed by request.")), .ok p)
          else
            let s1 := s.setByteCtrl { c2 with pending_descriptors := [d2] }
            let s1 := if s1.state = .Readable then { s1 with requests := s1.requests ++ [p] } else s1
            (ByteStreamController.pull_if_needed s1, .ok p)
        else
          let s1 := s.setByteCtrl { c with pending_descriptors := c.pending_descriptors ++ [d] }
          let s1 := if s1.state = .Readable then { s1 with requests := s1.requests ++ [p] } else s1
          (ByteStreamController.pull_if_needed s1, .ok p)

/-- The reactions `Controller::start` registers on the start promise
(controller.rs lines 131-171): on fulfilment mark `started` and
`pull_if_needed`. -/
def Controller.start_fulfilled (s : RStream) : RStream :=
  match s.controller with
  | .defaultC c => DefaultController.pull_if_needed (s.setDefaultCtrl { c with started := true })
  | .byteC c => ByteStreamController.pull_if_needed (s.setByteCtrl { c with started := true })

/-- `ReadableStream::constructor` (mod.rs lines 74-153), default-controller
arm: a fresh Readable unlocked stream around `DefaultController::initialise`
(controller.rs lines 353-386).  Without a `start` algorithm nothing ever
sets `started`. -/
def ReadableStream.constructorDefault (hasStart hasPull hasCancel : Bool)
    (sizeAlg : Option (Int → Option Nat)) (high_water_mark : Int) : RStream :=
  { controller := .defaultC
      { hasStart := hasStart, hasPull := hasPull, hasCancel := hasCancel, sizeAlg := sizeAlg,
        high_water_mark := high_water_mark, started := false, pulling := false,
        pull_again := false, close_requested := false, queue := [], queue_size := 0,
        pullCalls := 0 },
    reader_kind := .NoReader, requests := [], closed := 0, state := .Readable,
    disturbed := false, stored_error := none, promises := [] }

/-- `ReadableStream::constructor`, `type: "bytes"` arm, around
`ByteStreamController::initialise` (controller.rs lines 612-650). -/
def ReadableStream.constructorBytes (hasStart hasPull hasCancel : Bool)
    (auto_allocate_chunk_size : Nat) (high_water_mark : Int) : RStream :=
  { controller := .byteC
      { hasStart := hasStart, hasPull := hasPull, hasCancel := hasCancel,
        auto_allocate_chunk_size := auto_allocate_chunk_size,
        high_water_mark := high_water_mark, started := false, pulling := false,
        pull_again := false, close_requested := false, pending_descriptors := [],
        queue := [], queue_size := 0, pullCalls := 0 },
    reader_kind := .NoReader, requests := [], closed := 0, state := .Readable,
    disturbed := false, stored_error := none, promises := [] }

/-! ### Observable projections (statements quantify over these) -/

def RStream.defaultQueue : RStream → List (Int × Nat)
  | ⟨.defaultC c, _, _, _, _, _, _, _⟩ => c.queue
  | _ => []

def RStream.defaultQueueSize : RStream → Nat
  | ⟨.defaultC c, _, _, _, _, _, _, _⟩ => c.queue_size
  | _ => 0

def RStream.closeRequestedOf : RStream → Bool
  | ⟨.defaultC c, _, _, _, _, _, _, _⟩ => c.close_requested
  | ⟨.byteC c, _, _, _, _, _, _, _⟩ => c.close_requested

def RStream.hasPullOf : RStream → Bool
  | ⟨.defaultC c, _, _, _, _, _, _, _⟩ => c.hasPull
  | ⟨.byteC c, _, _, _, _, _, _, _⟩ => c.hasPull

def RStream.hasCancelOf : RStream → Bool
  | ⟨.defaultC c, _, _, _, _, _, _, _⟩ => c.hasCancel
  | ⟨.byteC c, _, _, _, _, _, _, _⟩ => c.hasCancel

def RStream.hasSizeOf : RStream → Bool
  | ⟨.defaultC c, _, _, _, _, _, _, _⟩ => c.sizeAlg.isSome
  | _ => false

def RStream.pullingOf : RStream → Bool
  | ⟨.defaultC c, _, _, _, _, _, _, _⟩ => c.pulling
  | ⟨.byteC c, _, _, _, _, _, _, _⟩ => c.pulling

def RStream.pullAgainOf : RStream → Bool
  | ⟨.defaultC c, _, _, _, _, _, _, _⟩ => c.pull_again
  | ⟨.byteC c, _, _, _, _, _, _, _⟩ => c.pull_again

def RStream.pullCallsOf : RStream → Nat
  | ⟨.defaultC c, _, _, _, _, _, _, _⟩ => c.pullCalls
  | ⟨.byteC c, _, _, _, _, _, _, _⟩ => c.pullCalls

def RStream.hasPullAlgOf : RStream → Bool
  | ⟨.defaultC c, _, _, _, _, _, _, _⟩ => c.hasPull
  | ⟨.byteC c, _, _, _, _, _, _, _⟩ => c.hasPull

/-- `should_call_pull` of whichever controller the stream owns. -/
def RStream.shouldCallPullOf (s : RStream) : Bool :=
  match s.controller with
  | .defaultC c => DefaultController.should_call_pull s c
  | .byteC c => ByteStreamController.should_call_pull s c

/-- `pull_if_needed` of whichever controller the stream owns. -/
def RStream.pullIfNeededOf (s : RStream) : RStream :=
  match s.controller with
  | .defaultC _ => DefaultController.pull_if_needed s
  | .byteC _ => ByteStreamController.pull_if_needed s

/-- The fulfilled-pull reaction of whichever controller the stream owns. -/
def RStream.pullSettledOf (s : RStream) : RStream :=
  match s.controller with
  | .defaultC _ => DefaultController.pull_settled_fulfilled s
  | .byteC _ => ByteStreamController.pull_settled_fulfilled s

def RStream.isDefaultController : RStream → Bool
  | ⟨.defaultC _, _, _, _, _, _, _, _⟩ => true
  | _ => false

def RStream.isByteController : RStream → Bool
  | ⟨.byteC _, _, _, _, _, _, _, _⟩ => true
  | _ => false

/-- The flattened byte contents of the byte controller's queue. -/
def RStream.byteQueueBytes : RStream → List Nat
  | ⟨.byteC c, _, _, _, _, _, _, _⟩ => c.queue.flatMap (fun e => (e.bytes.drop e.off).take e.len)
  | _ => []

def RStream.byteQueueSize : RStream → Nat
  | ⟨.byteC c, _, _, _, _, _, _, _⟩ => c.queue_size
  | _ => 0

end Spiderfire

namespace Spiderfire

/-! ### Registry lemmas -/

theorem settle_get_self (ps : List PromiseResult) (i : Nat) (out : PromiseResult)
    (h : ps.get? i = some .pending) : (settle ps i out).get? i = some out := by
  have hi : i < ps.length := by
    by_contra hlen
    rw [List.get?_eq_getElem?, List.getElem?_eq_none (by omega)] at h
    exact absurd h (by simp)
  unfold settle
  rw [h]
  simp [List.get?_eq_getElem?, List.getElem?_set_self hi]

theorem settle_get_ne (ps : List PromiseResult) (i j : Nat) (out : PromiseResult)
    (h : j ≠ i) : (settle ps i out).get? j = ps.get? j := by
  unfold settle
  cases hv : ps.get? i with
  | none => rfl
  | some p =>
    cases p with
    | pending => simp [List.get?_eq_getElem?, List.getElem?_set_ne (Ne.symm h)]
    | resolved val => rfl
    | rejected val => rfl

/-- Folding `settle` over pairwise-distinct pending promise ids settles each
of them and leaves every other id untouched. -/
theorem foldl_settle (out : PromiseResult) :
    ∀ (rs : List Nat) (ps : List PromiseResult), rs.Nodup →
      (∀ r ∈ rs, ps.get? r = some .pending) →
      (∀ r ∈ rs, (rs.foldl (fun ps r => settle ps r out) ps).get? r = some out)
      ∧ (∀ j, j ∉ rs → (rs.foldl (fun ps r => settle ps r out) ps).get? j = ps.get? j) := by
  intro rs
  induction rs with
  | nil => intro ps _ _; exact ⟨by simp, by simp⟩
  | cons r rs ih =>
    intro ps hnodup hpend
    have hr : ps.get? r = some .pending := hpend r (by simp)
    have hnotin : r ∉ rs := (List.nodup_cons.mp hnodup).1
    have hpend' : ∀ x ∈ rs, (settle ps r out).get? x = some .pending := by
      intro x hx
      rw [settle_get_ne ps r x out (fun hxr => hnotin (hxr ▸ hx))]
      exact hpend x (by simp [hx])
    obtain ⟨hall, hother⟩ := ih (settle ps r out) (List.nodup_cons.mp hnodup).2 hpend'
    constructor
    · intro x hx
      rcases List.mem_cons.mp hx with hxr | hxs
      · subst hxr
        show (List.foldl (fun ps r => settle ps r out) (settle ps x out) rs).get? x = some out
        rw [hother x hnotin]
        exact settle_get_self ps x out hr
      · exact hall x hxs
    · intro j hj
      show (List.foldl (fun ps r => settle ps r out) (settle ps r out) rs).get? j = ps.get? j
      rw [hother j (fun hins => hj (by simp [hins]))]
      exact settle_get_ne ps r j out (fun hjr => hj (by simp [hjr]))

theorem settle_get_append_fresh (ps : List PromiseResult) (out : PromiseResult) :
    (settle (ps ++ [.pending]) ps.length out).get? ps.length = some out := by
  apply settle_get_self
  rw [List.get?_eq_getElem?, List.getElem?_append_right (Nat.le_refl _)]
  simp

end Spiderfire

namespace Spiderfire

/-! ## Claim C1: enqueue-then-close ordering (`DefaultController::close`) -/

/-- C1 (code bug witness): on a Default-controller stream with an attached
default reader, `enqueue(7)` then `close()` succeeds, but `close()` —
`DefaultController::close`, controller.rs lines 490-505 — sets
`close_requested` only when the queue is *empty* and then closes the stream
unconditionally via `ReadableStream::close`: the state becomes Closed at once
while the chunk is still queued and `close_requested` is still `false`, so
the Readable-to-Closed transition is not deferred until the queue drains.
The subsequent `read()` (reader.rs lines 122-154) sees state Closed and
immediately resolves `{done: true}`: chunk 7 is never delivered, instead of
the claimed sequence `{value: 7}` then one `{done: true}`. -/
theorem c1_close_with_nonempty_queue_drops_chunks :
    ∃ s1 s2 s3 : RStream,
      ReadableStream.getReader
        (ReadableStream.constructorDefault false false false none 1) none = .ok s1
      ∧ DefaultController.enqueue s1 7 = .ok s2
      ∧ s2.defaultQueue = [(7, 1)]
      ∧ DefaultController.close s2 = .ok s3
      ∧ s3.state = .Closed
      ∧ s3.closeRequestedOf = false
      ∧ s3.defaultQueue = [(7, 1)]
      ∧ (DefaultReader.read s3).2 = .ok 1
      ∧ (DefaultReader.read s3).1.promises.get? 1
          = some (.resolved (.readResultNone true)) := by
  exact ⟨_, _, _, rfl, rfl, rfl, rfl, rfl, rfl, rfl, rfl, rfl⟩

end Spiderfire

namespace Spiderfire

theorem foldl_settleIn (out : PromiseResult) (rs : List Nat) :
    ∀ s : RStream, rs.foldl (fun s r => settleIn s r out) s
      = { s with promises := rs.foldl (fun ps r => settle ps r out) s.promises } := by
  induction rs with
  | nil => intro s; rfl
  | cons r rs ih =>
    intro s
    show rs.foldl (fun s r => settleIn s r out) (settleIn s r out) = _
    rw [ih (settleIn s r out)]
    rfl

/-! ## Claim C2: error broadcast (`DefaultController::error_internal`,
`ReadableStream::error`, `DefaultReader::read`) -/

/-- C2: on a Readable Default-controller stream whose default reader holds
the `K = s.requests.length` outstanding read requests (pairwise distinct
pending promises, distinct from the pending `closed` promise), `error(e)`
clears the queue, drops the `pull`/`cancel`/`size` algorithm references,
moves the stream to Errored storing `e`, rejects the reader's `closed`
promise with `e`, rejects all `K` outstanding requests with that same `e`,
and a subsequent `read()` immediately returns a promise rejected with the
stored `e`. -/
theorem c2_error_broadcast (s : RStream) (c : DefaultCtrl) (e : Int)
    (hc : s.controller = .defaultC c)
    (hst : s.state = .Readable)
    (hrk : s.reader_kind = .Default)
    (hnodup : s.requests.Nodup)
    (hpend : ∀ r ∈ s.requests, s.promises.get? r = some .pending)
    (hclosed : s.promises.get? s.closed = some .pending)
    (hcnr : s.closed ∉ s.requests) :
    ∃ s', DefaultController.error s (some (.v e)) = .ok s'
      ∧ s'.state = .Errored
      ∧ s'.stored_error = some (.v e)
      ∧ s'.defaultQueue = [] ∧ s'.defaultQueueSize = 0
      ∧ s'.hasPullOf = false ∧ s'.hasCancelOf = false ∧ s'.hasSizeOf = false
      ∧ (∀ r ∈ s.requests, s'.promises.get? r = some (.rejected (.v e)))
      ∧ s'.promises.get? s.closed = some (.rejected (.v e))
      ∧ s'.requests = []
      ∧ (DefaultReader.read s').2 = .ok s'.promises.length
      ∧ (DefaultReader.read s').1.promises.get? s'.promises.length
          = some (.rejected (.v e)) := by
  obtain ⟨ctrl, rk, reqs, closedP, st, dist, serr, proms⟩ := s
  simp only at hc hst hrk hnodup hpend hclosed hcnr
  subst hc hst hrk
  refine ⟨_, rfl, ?_⟩
  rw [foldl_settleIn]
  simp only [settleIn, RStream.setDefaultCtrl, Option.getD, RStream.defaultQueue,
    RStream.defaultQueueSize, RStream.hasPullOf, RStream.hasCancelOf, RStream.hasSizeOf,
    DefaultReader.read, newPromise, Controller.pull, Option.isSome_none, bne_self_eq_false,
    Bool.false_eq_true, if_false, true_and]
  have hpend2 : ∀ r ∈ reqs,
      (settle proms closedP (.rejected (.v e))).get? r = some .pending := by
    intro r hr
    rw [settle_get_ne proms closedP r _ (fun hrc => hcnr (hrc ▸ hr))]
    exact hpend r hr
  obtain ⟨hall, hother⟩ := foldl_settle (.rejected (.v e)) reqs
    (settle proms closedP (.rejected (.v e))) hnodup hpend2
  refine ⟨hall, ?_, ?_⟩
  · rw [hother closedP hcnr]
    exact settle_get_self proms closedP _ hclosed
  · exact settle_get_append_fresh _ _

/-- The stream of the C2 witness: a sourceless default stream, default
reader acquired, two `read()` calls outstanding. -/
def c2WitnessState : RStream :=
  match ReadableStream.getReader (ReadableStream.constructorDefault false false false none 1) none with
  | .ok s1 => (DefaultReader.read (DefaultReader.read s1).1).1
  | .error _ => ReadableStream.constructorDefault false false false none 1

/-- C2 witness: the broadcast theorem applied at the concrete two-request
stream with error value `5`. -/
theorem c2_error_broadcast_witness :
    ∃ s', DefaultController.error c2WitnessState (some (.v 5)) = .ok s'
      ∧ s'.state = .Errored
      ∧ s'.stored_error = some (.v 5)
      ∧ s'.defaultQueue = [] ∧ s'.defaultQueueSize = 0
      ∧ s'.hasPullOf = false ∧ s'.hasCancelOf = false ∧ s'.hasSizeOf = false
      ∧ (∀ r ∈ c2WitnessState.requests, s'.promises.get? r = some (.rejected (.v 5)))
      ∧ s'.promises.get? c2WitnessState.closed = some (.rejected (.v 5))
      ∧ s'.requests = []
      ∧ (DefaultReader.read s').2 = .ok s'.promises.length
      ∧ (DefaultReader.read s').1.promises.get? s'.promises.length
          = some (.rejected (.v 5)) :=
  c2_error_broadcast c2WitnessState
    ⟨false, false, false, none, 1, false, false, false, false, [], 0, 0⟩ 5
    rfl rfl rfl (by decide) (by decide) (by decide) (by decide)

end Spiderfire

namespace Spiderfire

/-! ## Claim C3: at-most-one reader and reader modes
(`ReadableStream::getReader`, `DefaultReader::new`, `ByobReader::new`,
`releaseLock`) -/

/-- Dispatch `releaseLock` to the attached reader (the source calls it on
the held `DefaultReader` / `ByobReader` object). -/
def releaseLockOf (s : RStream) : Except Err RStream :=
  match s.reader_kind with
  | .Default => DefaultReader.releaseLock s
  | .Byob => ByobReader.releaseLock s
  | .NoReader => .error ⟨.TypeE, "Reader has already been released."⟩

theorem get_locked_true (s : RStream) (h : s.reader_kind ≠ .NoReader) :
    ReadableStream.get_locked s = true := by
  simp [ReadableStream.get_locked, bne_iff_ne, h]

theorem getReader_ok_kind (s s' : RStream) (mode : Option String)
    (h : ReadableStream.getReader s mode = .ok s') :
    s'.reader_kind = .Default ∨ s'.reader_kind = .Byob := by
  unfold ReadableStream.getReader at h
  cases mode with
  | none =>
    by_cases hl : ReadableStream.get_locked s = true
    · simp [hl] at h
    · simp [hl] at h
      unfold DefaultReader.new at h
      simp [hl] at h
      rw [← h]
      left; rfl
  | some m =>
    by_cases hm : m = "byob"
    · subst hm
      simp only [if_pos rfl] at h
      unfold ByobReader.new at h
      by_cases hl : ReadableStream.get_locked s = true
      · simp [hl] at h
      · simp [hl] at h
        cases hc : s.controller with
        | defaultC c => rw [hc] at h; simp at h
        | byteC c =>
          rw [hc] at h
          simp at h
          rw [← h]
          right; rfl
    · simp [hm] at h

theorem getReader_locked_fails (s : RStream) (h : s.reader_kind ≠ .NoReader) (mode : Option String) :
    ∃ err, ReadableStream.getReader s mode = .error err ∧ err.kind = .TypeE := by
  have hl := get_locked_true s h
  cases mode with
  | none =>
    exact ⟨⟨.TypeE, "New readers cannot be initialised for locked streams."⟩,
      by simp [ReadableStream.getReader, hl], rfl⟩
  | some m =>
    by_cases hm : m = "byob"
    · subst hm
      exact ⟨⟨.TypeE, "Cannot create BYOBReader from locked stream."⟩,
        by simp [ReadableStream.getReader, ByobReader.new, hl], rfl⟩
    · exact ⟨⟨.TypeE, "Mode must be \'byob\' or must not exist."⟩,
      by simp [ReadableStream.getReader, hm], rfl⟩

theorem releaseLock_default_ok (s : RStream) (h : s.reader_kind = .Default) :
    ∃ s', DefaultReader.releaseLock s = .ok s' ∧ s'.reader_kind = .NoReader := by
  obtain ⟨ctrl, rk, reqs, closedP, st, dist, serr, proms⟩ := s
  simp only at h
  subst h
  unfold DefaultReader.releaseLock
  simp only [bne_self_eq_false, Bool.false_eq_true, if_false]
  refine ⟨_, rfl, ?_⟩
  cases st <;>
    cases ctrl with
    | defaultC c =>
      rw [foldl_settleIn]
      rfl
    | byteC c =>
      cases hpd : c.pending_descriptors <;>
        · rw [foldl_settleIn]
          simp [Controller.release, settleIn, RStream.setByteCtrl, hpd, newPromise]

theorem releaseLock_byob_ok (s : RStream) (h : s.reader_kind = .Byob) :
    ∃ s', ByobReader.releaseLock s = .ok s' ∧ s'.reader_kind = .NoReader := by
  obtain ⟨ctrl, rk, reqs, closedP, st, dist, serr, proms⟩ := s
  simp only at h
  subst h
  unfold ByobReader.releaseLock
  simp only [bne_self_eq_false, Bool.false_eq_true, if_false]
  refine ⟨_, rfl, ?_⟩
  cases st <;>
    cases ctrl with
    | defaultC c =>
      rw [foldl_settleIn]
      rfl
    | byteC c =>
      cases hpd : c.pending_descriptors <;>
        · rw [foldl_settleIn]
          simp [Controller.release, settleIn, RStream.setByteCtrl, hpd, newPromise]

theorem getReader_default_unlocked_ok (s : RStream) (h : s.reader_kind = .NoReader) :
    ∃ s', ReadableStream.getReader s none = .ok s' := by
  have hl : ReadableStream.get_locked s = false := by
    simp [ReadableStream.get_locked, h]
  simp only [ReadableStream.getReader, DefaultReader.new, hl, Bool.false_eq_true, if_false]
  exact ⟨_, rfl⟩

theorem getReader_byob_unlocked_ok (s : RStream) (h : s.reader_kind = .NoReader)
    (hb : s.isByteController = true) :
    ∃ s', ReadableStream.getReader s (some "byob") = .ok s' := by
  have hl : ReadableStream.get_locked s = false := by
    simp [ReadableStream.get_locked, h]
  obtain ⟨ctrl, rk, reqs, closedP, st, dist, serr, proms⟩ := s
  cases ctrl with
  | defaultC c => simp [RStream.isByteController] at hb
  | byteC c =>
    simp only at hl
    simp only [ReadableStream.getReader, ByobReader.new, hl, Bool.false_eq_true, if_false,
      if_pos rfl]
    exact ⟨_, rfl⟩

theorem getReader_byob_default_controller_fails (s : RStream)
    (hd : s.isDefaultController = true) :
    ∃ err, ReadableStream.getReader s (some "byob") = .error err ∧ err.kind = .TypeE := by
  obtain ⟨ctrl, rk, reqs, closedP, st, dist, serr, proms⟩ := s
  cases ctrl with
  | byteC c => simp [RStream.isDefaultController] at hd
  | defaultC c =>
    by_cases hl : ReadableStream.get_locked ⟨.defaultC c, rk, reqs, closedP, st, dist, serr, proms⟩ = true
    · exact ⟨⟨.TypeE, "Cannot create BYOBReader from locked stream."⟩,
        by simp [ReadableStream.getReader, ByobReader.new, hl], rfl⟩
    · exact ⟨⟨.TypeE, "Cannot create BYOBReader from DefaultController"⟩,
        by simp [ReadableStream.getReader, ByobReader.new, hl], rfl⟩

/-- C3: once a `getReader` call of either mode succeeds, any second
`getReader` call in either mode fails with a TypeError until `releaseLock()`
is called on the held reader (after which `getReader` succeeds again);
`getReader({mode: "byob"})` always fails with a TypeError on a
Default-controller stream; default mode is legal (no controller check) for
both controller kinds whenever the stream is unlocked, and `"byob"` is legal
on an unlocked ByteStream-controller stream. -/
theorem c3_at_most_one_reader (s : RStream) :
    (∀ (mode : Option String) (s' : RStream), ReadableStream.getReader s mode = .ok s' →
        (∀ mode2 : Option String, ∃ err, ReadableStream.getReader s' mode2 = .error err
            ∧ err.kind = .TypeE)
        ∧ ∃ s'', releaseLockOf s' = .ok s''
            ∧ s''.reader_kind = .NoReader
            ∧ ∃ s3, ReadableStream.getReader s'' none = .ok s3)
    ∧ (s.isDefaultController = true →
        ∃ err, ReadableStream.getReader s (some "byob") = .error err ∧ err.kind = .TypeE)
    ∧ (s.reader_kind = .NoReader → ∃ s', ReadableStream.getReader s none = .ok s')
    ∧ (s.reader_kind = .NoReader → s.isByteController = true →
        ∃ s', ReadableStream.getReader s (some "byob") = .ok s') := by
  refine ⟨?_, getReader_byob_default_controller_fails s, getReader_default_unlocked_ok s,
    getReader_byob_unlocked_ok s⟩
  intro mode s' hok
  have hkind := getReader_ok_kind s s' mode hok
  have hne : s'.reader_kind ≠ .NoReader := by
    rcases hkind with h | h <;> simp [h]
  refine ⟨getReader_locked_fails s' hne, ?_⟩
  rcases hkind with h | h
  · obtain ⟨s'', hrel, hnor⟩ := releaseLock_default_ok s' h
    exact ⟨s'', by simp [releaseLockOf, h, hrel], hnor, getReader_default_unlocked_ok s'' hnor⟩
  · obtain ⟨s'', hrel, hnor⟩ := releaseLock_byob_ok s' h
    exact ⟨s'', by simp [releaseLockOf, h, hrel], hnor, getReader_default_unlocked_ok s'' hnor⟩

/-- A fresh sourceless byte stream and a fresh sourceless default stream. -/
def c3ByteS : RStream := ReadableStream.constructorBytes false false false 0 0

def c3DefaultS : RStream := ReadableStream.constructorDefault false false false none 1

/-- C3 witness: the theorem at the concrete fresh streams — acquiring a BYOB
reader on the byte stream locks it against both modes and `releaseLock`
reopens it; `"byob"` on the default stream is a TypeError; default mode
succeeds on the unlocked byte stream. -/
theorem c3_at_most_one_reader_witness :
    (∃ s1, ReadableStream.getReader c3ByteS (some "byob") = .ok s1
      ∧ (∀ mode2 : Option String, ∃ err, ReadableStream.getReader s1 mode2 = .error err
          ∧ err.kind = .TypeE)
      ∧ ∃ s'', releaseLockOf s1 = .ok s''
          ∧ s''.reader_kind = .NoReader
          ∧ ∃ s3, ReadableStream.getReader s'' none = .ok s3)
    ∧ (∃ err, ReadableStream.getReader c3DefaultS (some "byob") = .error err
        ∧ err.kind = .TypeE)
    ∧ (∃ s', ReadableStream.getReader c3ByteS none = .ok s') := by
  refine ⟨⟨_, rfl, (c3_at_most_one_reader c3ByteS).1 (some "byob") _ rfl⟩,
    (c3_at_most_one_reader c3DefaultS).2.1 rfl,
    (c3_at_most_one_reader c3ByteS).2.2.1 rfl⟩

end Spiderfire

namespace Spiderfire

/-! ## Claim C4: pull coalescing (`pull_if_needed` of both controllers) -/

/-- C4 (amended): for either controller, `pull_if_needed` invokes the user
`pull` algorithm (when its reference is present) exactly when
`should_call_pull()` holds and no pull is in flight; a call arriving while
the `pulling` flag is set never re-enters the algorithm and raises
`pull_again` iff `should_call_pull()` holds (it is a no-op otherwise); the
settling of the in-flight pull's returned promise consumes `pull_again` and
makes at most one coalesced follow-up invocation — exactly one iff
`should_call_pull()` still holds and the pull reference is still present. -/
theorem c4_pull_coalescing (s : RStream) :
    (s.pullIfNeededOf.pullCallsOf
        = s.pullCallsOf + (if s.shouldCallPullOf ∧ ¬s.pullingOf ∧ s.hasPullOf then 1 else 0))
    ∧ (s.pullingOf = true →
        s.pullIfNeededOf.pullCallsOf = s.pullCallsOf
        ∧ s.pullIfNeededOf.pullAgainOf = (s.pullAgainOf || s.shouldCallPullOf))
    ∧ (s.pullSettledOf.pullAgainOf = false
        ∧ s.pullSettledOf.pullCallsOf
            = s.pullCallsOf + (if s.pullAgainOf ∧ s.shouldCallPullOf ∧ s.hasPullOf then 1 else 0)) := by
  obtain ⟨ctrl, rk, reqs, closedP, st, dist, serr, proms⟩ := s
  cases ctrl with
  | defaultC c =>
    have hseq : ∀ (p₁ p₂ : Bool) (n : Nat),
        DefaultController.should_call_pull
          (⟨.defaultC { c with pulling := p₁, pull_again := p₂, pullCalls := n },
            rk, reqs, closedP, st, dist, serr, proms⟩ : RStream)
          { c with pulling := p₁, pull_again := p₂, pullCalls := n }
        = DefaultController.should_call_pull
          (⟨.defaultC c, rk, reqs, closedP, st, dist, serr, proms⟩ : RStream) c :=
      fun _ _ _ => rfl
    by_cases hsh : DefaultController.should_call_pull
        (⟨.defaultC c, rk, reqs, closedP, st, dist, serr, proms⟩ : RStream) c = true <;>
      by_cases hpul : c.pulling = true <;>
        by_cases hpa : c.pull_again = true <;>
          by_cases hhp : c.hasPull = true <;>
            simp_all [RStream.pullIfNeededOf, RStream.pullSettledOf, RStream.pullCallsOf,
              RStream.pullAgainOf, RStream.pullingOf, RStream.hasPullOf, RStream.shouldCallPullOf,
              DefaultController.pull_if_needed, DefaultController.pull_settled_fulfilled,
              RStream.setDefaultCtrl]
  | byteC c =>
    have hseq : ∀ (p₁ p₂ : Bool) (n : Nat),
        ByteStreamController.should_call_pull
          (⟨.byteC { c with pulling := p₁, pull_again := p₂, pullCalls := n },
            rk, reqs, closedP, st, dist, serr, proms⟩ : RStream)
          { c with pulling := p₁, pull_again := p₂, pullCalls := n }
        = ByteStreamController.should_call_pull
          (⟨.byteC c, rk, reqs, closedP, st, dist, serr, proms⟩ : RStream) c :=
      fun _ _ _ => rfl
    by_cases hsh : ByteStreamController.should_call_pull
        (⟨.byteC c, rk, reqs, closedP, st, dist, serr, proms⟩ : RStream) c = true <;>
      by_cases hpul : c.pulling = true <;>
        by_cases hpa : c.pull_again = true <;>
          by_cases hhp : c.hasPull = true <;>
            simp_all [RStream.pullIfNeededOf, RStream.pullSettledOf, RStream.pullCallsOf,
              RStream.pullAgainOf, RStream.pullingOf, RStream.hasPullOf, RStream.shouldCallPullOf,
              ByteStreamController.pull_if_needed, ByteStreamController.pull_settled_fulfilled,
              RStream.setByteCtrl]

/-- A default controller mid-pull (`pulling = true`) whose
`should_call_pull()` is false because close has been requested. -/
def c4CounterCtrl : DefaultCtrl :=
  { hasStart := false, hasPull := true, hasCancel := false, sizeAlg := none,
    high_water_mark := 1, started := true, pulling := true, pull_again := false,
    close_requested := true, queue := [], queue_size := 0, pullCalls := 0 }

def c4CounterState : RStream :=
  ⟨.defaultC c4CounterCtrl, .NoReader, [], 0, .Readable, false, none, []⟩

def c4CounterState2 : RStream :=
  ⟨.defaultC { c4CounterCtrl with pull_again := true }, .NoReader, [], 0, .Readable,
    false, none, []⟩

/-- C4 counterexample: a `pull_if_needed` call arriving while `pulling` is
set does **not** set `pull_again` when `should_call_pull()` is false (first
state), and a raised `pull_again` does **not** cause exactly one follow-up
invocation of the pull algorithm when `should_call_pull()` is false at
settle time (second state: zero follow-ups although the pull reference is
present). -/
theorem c4_pull_again_counterexample :
    (c4CounterState.pullingOf = true
      ∧ (DefaultController.pull_if_needed c4CounterState).pullAgainOf = false
      ∧ (DefaultController.pull_if_needed c4CounterState).pullCallsOf = 0)
    ∧ (c4CounterState2.pullingOf = true ∧ c4CounterState2.pullAgainOf = true
      ∧ c4CounterState2.hasPullOf = true
      ∧ (DefaultController.pull_settled_fulfilled c4CounterState2).pullCallsOf = 0) := by
  decide

/-- C4 witness: the coalescing theorem at the concrete mid-pull state, its
`pulling = true` hypothesis discharged there. -/
theorem c4_pull_coalescing_witness :
    c4CounterState.pullIfNeededOf.pullCallsOf = c4CounterState.pullCallsOf
    ∧ c4CounterState.pullIfNeededOf.pullAgainOf
        = (c4CounterState.pullAgainOf || c4CounterState.shouldCallPullOf)
    ∧ c4CounterState.pullSettledOf.pullAgainOf = false :=
  ⟨((c4_pull_coalescing c4CounterState).2.1 (by decide)).1,
   ((c4_pull_coalescing c4CounterState).2.1 (by decide)).2,
   (c4_pull_coalescing c4CounterState).2.2.1⟩

end Spiderfire

namespace Spiderfire

/-! ## Claim C6: TransformStream termination
(`runtime/src/globals/streams/transform_stream.rs`)

`TransformStream::get_or_create_finish_promise` (lines 592-662) memoizes
`finish_promise`; `Sink::abort` (lines 489-530) and `Source::cancel` (lines
257-298) both funnel into it.  What the transformer's `cancel` call returns
is a parameter (`CancelOutcome`); invoking it bumps the ghost counter
`cancelCalls`.  The reactions each caller registers on a just-created
promise act on the writable/readable halves, outside this model. -/

/-- The possible results of calling the transformer's `cancel` function. -/
inductive CancelOutcome where
  | threwSome (e : JsVal)
  | threwNone
  | retPromise
  | retNonPromise
deriving DecidableEq, Repr

/-- The termination-relevant state of a `TransformStream` (lines 533-548). -/
structure TSModel where
  cancelAlg : Bool
  stored_error : Option JsVal
  finish_promise : Option Nat
  cancelCalls : Nat
  promises : List PromiseResult
deriving DecidableEq, Repr

/-- `finish_promise_inner` (lines 593-598): a promise rejected with the
stored error, or resolved with undefined. -/
def TransformStream.finish_promise_inner (s : TSModel) : TSModel × Nat :=
  let p := s.promises.length
  match s.stored_error with
  | some e => ({ s with promises := s.promises ++ [.rejected e] }, p)
  | none => ({ s with promises := s.promises ++ [.resolved .undef] }, p)

/-- `TransformStream::get_or_create_finish_promise` (lines 592-662): return
the memoized promise if present; otherwise call the transformer's `cancel`
algorithm (when present) exactly once and memoize the promise derived from
its outcome (`Err(Some)`/`Err(None)` → rejected; a returned promise → a
fresh pending promise wired to it; otherwise `finish_promise_inner`).
Returns (state, promise, just_created). -/
def TransformStream.get_or_create_finish_promise (s : TSModel) (_reason : JsVal)
    (outcome : CancelOutcome) : TSModel × Nat × Bool :=
  match s.finish_promise with
  | some p => (s, p, false)
  | none =>
    if s.cancelAlg then
      let s := { s with cancelCalls := s.cancelCalls + 1 }
      match outcome with
      | .threwSome e =>
        let p := s.promises.length
        ({ s with promises := s.promises ++ [.rejected e], finish_promise := some p }, p, true)
      | .threwNone =>
        let p := s.promises.length
        ({ s with promises := s.promises ++ [.rejected .undef], finish_promise := some p },
         p, true)
      | .retPromise =>
        let p := s.promises.length
        ({ s with promises := s.promises ++ [.pending], finish_promise := some p }, p, true)
      | .retNonPromise =>
        let r := TransformStream.finish_promise_inner s
        ({ r.1 with finish_promise := some r.2 }, r.2, true)
    else
      let r := TransformStream.finish_promise_inner s
      ({ r.1 with finish_promise := some r.2 }, r.2, true)

/-- `Sink::abort` (lines 489-530): the writable half's termination request. -/
def Sink.abort (s : TSModel) (reason : JsVal) (outcome : CancelOutcome) : TSModel × Nat :=
  let r := TransformStream.get_or_create_finish_promise s reason outcome
  (r.1, r.2.1)

/-- `Source::cancel` (lines 257-298): the readable half's termination
request. -/
def Source.cancel (s : TSModel) (reason : JsVal) (outcome : CancelOutcome) : TSModel × Nat :=
  let r := TransformStream.get_or_create_finish_promise s reason outcome
  (r.1, r.2.1)

/-- One termination request: `abort()` on the writable half
(`fromSink = true`) or `cancel()` on the readable half. -/
structure TermReq where
  fromSink : Bool
  reason : JsVal
  outcome : CancelOutcome
deriving DecidableEq, Repr

def runTermReq (s : TSModel) (r : TermReq) : TSModel × Nat :=
  if r.fromSink then Sink.abort s r.reason r.outcome else Source.cancel s r.reason r.outcome

/-- Run a sequence of termination requests, collecting each call's returned
promise. -/
def runTermReqs (s : TSModel) : List TermReq → TSModel × List Nat
  | [] => (s, [])
  | r :: rest =>
    let r1 := runTermReq s r
    let r2 := runTermReqs r1.1 rest
    (r2.1, r1.2 :: r2.2)

theorem runTermReqs_memoized (p : Nat) (rs : List TermReq) :
    ∀ s : TSModel, s.finish_promise = some p →
      runTermReqs s rs = (s, List.replicate rs.length p) := by
  induction rs with
  | nil => intro s _; rfl
  | cons r rs ih =>
    intro s hs
    have hstep : runTermReq s r = (s, p) := by
      cases hfs : r.fromSink <;>
        simp [runTermReq, hfs, Sink.abort, Source.cancel,
          TransformStream.get_or_create_finish_promise, hs]
    show (let r1 := runTermReq s r
          let r2 := runTermReqs r1.1 rs
          (r2.1, r1.2 :: r2.2)) = _
    rw [hstep]
    simp only
    rw [ih s hs]
    rfl

/-- C6: starting from a TransformStream with no memoized finish promise, the
first termination request — `abort()` on the writable half or `cancel()` on
the readable half, whichever — creates and memoizes a single finish promise,
invoking the transformer's `cancel` algorithm exactly once when present and
never when absent; every subsequent request from either side returns that
same memoized promise object (hence both halves observe the identical
settled outcome), and the cancel algorithm is never invoked again. -/
theorem c6_transform_termination_memoized (s₀ : TSModel) (r : TermReq) (rs : List TermReq)
    (hfresh : s₀.finish_promise = none) :
    ∃ p sF, runTermReqs s₀ (r :: rs) = (sF, List.replicate (rs.length + 1) p)
      ∧ sF.finish_promise = some p
      ∧ sF.cancelCalls = s₀.cancelCalls + (if s₀.cancelAlg then 1 else 0) := by
  obtain ⟨calg, serr, hfp, calls, proms⟩ := s₀
  simp only at hfresh
  subst hfresh
  have hstep : ∃ s1 p, runTermReq ⟨calg, serr, none, calls, proms⟩ r = (s1, p)
      ∧ s1.finish_promise = some p
      ∧ s1.cancelCalls = calls + (if calg then 1 else 0) := by
    cases hfs : r.fromSink <;>
      cases calg <;>
        rcases r with ⟨fs, reason, outcome⟩ <;>
          cases outcome <;>
            cases serr <;>
              simp_all [runTermReq, Sink.abort, Source.cancel,
                TransformStream.get_or_create_finish_promise,
                TransformStream.finish_promise_inner] <;>
              exact ⟨_, _, ⟨rfl, rfl⟩, rfl, rfl⟩
  obtain ⟨s1, p, hrun, hmem, hcalls⟩ := hstep
  refine ⟨p, s1, ?_, hmem, hcalls⟩
  show (let r1 := runTermReq ⟨calg, serr, none, calls, proms⟩ r
        let r2 := runTermReqs r1.1 rs
        (r2.1, r1.2 :: r2.2)) = _
  rw [hrun]
  simp only
  rw [runTermReqs_memoized p rs s1 hmem]
  rfl

/-- C6 witness: `abort()` from the sink side then `cancel()` from the source
side on a fresh TransformStream with a cancel algorithm. -/
theorem c6_transform_termination_witness :
    ∃ p sF, runTermReqs ⟨true, none, none, 0, []⟩
        [⟨true, .undef, .retNonPromise⟩, ⟨false, .undef, .retNonPromise⟩]
        = (sF, List.replicate 2 p)
      ∧ sF.finish_promise = some p
      ∧ sF.cancelCalls = 0 + (if true then 1 else 0) :=
  c6_transform_termination_memoized ⟨true, none, none, 0, []⟩
    ⟨true, .undef, .retNonPromise⟩ [⟨false, .undef, .retNonPromise⟩] rfl

end Spiderfire

namespace Spiderfire

def sumLen (q : List QEntry) : Nat := (q.map QEntry.len).sum

def flattenQ (q : List QEntry) : List Nat :=
  q.flatMap (fun e => (e.bytes.drop e.off).take e.len)

def invQ (q : List QEntry) : Prop := ∀ e ∈ q, 0 < e.len ∧ e.off + e.len ≤ e.bytes.length

theorem seg_length (e : QEntry) (h : e.off + e.len ≤ e.bytes.length) :
    ((e.bytes.drop e.off).take e.len).length = e.len := by
  simp [List.length_take, List.length_drop]
  omega

theorem writeAt_nil (buf : List Nat) (p : Nat) : writeAt buf p [] = buf := by
  simp [writeAt]

theorem writeAt_length (buf : List Nat) (p : Nat) (seg : List Nat)
    (h : p + seg.length ≤ buf.length) : (writeAt buf p seg).length = buf.length := by
  simp [writeAt]
  omega

theorem writeAt_append (buf : List Nat) (p : Nat) (s1 s2 : List Nat)
    (h : p + s1.length + s2.length ≤ buf.length) :
    writeAt (writeAt buf p s1) (p + s1.length) s2 = writeAt buf p (s1 ++ s2) := by
  have hp : p ≤ buf.length := by omega
  have h1 : (buf.take p).length = p := by rw [List.length_take]; omega
  have h2 : (buf.take p ++ s1).length = p + s1.length := by
    rw [List.length_append, h1]
  have htake : (writeAt buf p s1).take (p + s1.length) = buf.take p ++ s1 := by
    show (buf.take p ++ s1 ++ buf.drop (p + s1.length)).take (p + s1.length) = _
    rw [List.take_append_eq_append_take, h2, List.take_of_length_le (le_of_eq h2),
        Nat.sub_self, List.take_zero, List.append_nil]
  have hdrop : (writeAt buf p s1).drop (p + s1.length + s2.length)
      = buf.drop (p + s1.length + s2.length) := by
    show (buf.take p ++ s1 ++ buf.drop (p + s1.length)).drop (p + s1.length + s2.length) = _
    rw [List.drop_append_eq_append_drop, h2,
        List.drop_eq_nil_of_le (by rw [h2]; omega), List.nil_append, List.drop_drop]
    congr 1
    omega
  calc writeAt (writeAt buf p s1) (p + s1.length) s2
      = (writeAt buf p s1).take (p + s1.length) ++ s2
          ++ (writeAt buf p s1).drop (p + s1.length + s2.length) := rfl
    _ = buf.take p ++ s1 ++ s2 ++ buf.drop (p + s1.length + s2.length) := by
        rw [htake, hdrop]
    _ = writeAt buf p (s1 ++ s2) := by
        unfold writeAt
        rw [List.length_append]
        have harith : p + (s1.length + s2.length) = p + s1.length + s2.length := by omega
        rw [harith]
        simp [List.append_assoc]

theorem fillLoop_spec :
    ∀ (fuel : Nat) (q : List QEntry) (qs : Nat) (buf : List Nat) (dpos filled remaining : Nat),
      remaining < fuel →
      remaining ≤ qs →
      qs = sumLen q →
      invQ q →
      dpos + filled + remaining ≤ buf.length →
      (fillLoop fuel q qs buf dpos filled remaining).2.2.2 = filled + remaining
      ∧ (fillLoop fuel q qs buf dpos filled remaining).2.1 = qs - remaining
      ∧ flattenQ (fillLoop fuel q qs buf dpos filled remaining).1 = (flattenQ q).drop remaining
      ∧ (fillLoop fuel q qs buf dpos filled remaining).2.2.1
          = writeAt buf (dpos + filled) ((flattenQ q).take remaining)
      ∧ sumLen (fillLoop fuel q qs buf dpos filled remaining).1 = qs - remaining
      ∧ invQ (fillLoop fuel q qs buf dpos filled remaining).1
      ∧ (fillLoop fuel q qs buf dpos filled remaining).2.2.1.length = buf.length := by
  intro fuel
  induction fuel with
  | zero => intro q qs buf dpos filled remaining hfuel; omega
  | succ fuel ih =>
    intro q qs buf dpos filled remaining hfuel hrqs hsum hinv hbound
    by_cases hr0 : remaining = 0
    · subst hr0
      have hred : fillLoop (fuel + 1) q qs buf dpos filled 0 = (q, qs, buf, filled) := rfl
      rw [hred]
      exact ⟨by simp, by simp, by simp, by simp [writeAt_nil], by simpa using hsum.symm, hinv, rfl⟩
    · cases q with
      | nil =>
        exfalso
        have h0 : sumLen ([] : List QEntry) = 0 := rfl
        omega
      | cons e rest =>
        obtain ⟨helen, hebound⟩ := hinv e (List.mem_cons_self e rest)
        have hinvrest : invQ rest := fun x hx => hinv x (List.mem_cons_of_mem e hx)
        have hsumcons : qs = e.len + sumLen rest := by
          simpa [sumLen] using hsum
        set copy := min remaining e.len with hcopy
        have hcopy1 : 1 ≤ copy := by omega
        have hcopyr : copy ≤ remaining := by omega
        have hcopye : copy ≤ e.len := by omega
        have hfuel1 : remaining - copy < fuel := by omega
        have hsegfull_len : ((e.bytes.drop e.off).take e.len).length = e.len :=
          seg_length e hebound
        have hseg_len : ((e.bytes.drop e.off).take copy).length = copy := by
          rw [List.length_take, List.length_drop]
          omega
        have hseg_take : (e.bytes.drop e.off).take copy
            = ((e.bytes.drop e.off).take e.len).take copy := by
          rw [List.take_take]
          congr 1
          omega
        have hflat : flattenQ (e :: rest)
            = (e.bytes.drop e.off).take e.len ++ flattenQ rest := by
          simp [flattenQ]
        have hbuf2len :
            (writeAt buf (dpos + filled) ((e.bytes.drop e.off).take copy)).length
              = buf.length := by
          rw [writeAt_length]
          rw [hseg_len]
          omega
        have hred : fillLoop (fuel + 1) (e :: rest) qs buf dpos filled remaining
            = fillLoop fuel
                (if copy = e.len then rest
                 else { e with off := e.off + copy, len := e.len - copy } :: rest)
                (qs - copy)
                (writeAt buf (dpos + filled) ((e.bytes.drop e.off).take copy))
                dpos (filled + copy) (remaining - copy) := by
          rw [fillLoop.eq_def]
          simp [hr0, hcopy]
        by_cases hce : copy = e.len
        · rw [hred, if_pos hce]
          obtain ⟨ih1, ih2, ih3, ih4, ih5, ih6, ih7⟩ := ih rest (qs - copy)
            (writeAt buf (dpos + filled) ((e.bytes.drop e.off).take copy)) dpos
            (filled + copy) (remaining - copy) hfuel1 (by omega) (by omega) hinvrest
            (by rw [hbuf2len]; omega)
          refine ⟨by rw [ih1]; omega, by rw [ih2]; omega, ?_, ?_,
            by rw [ih5]; omega, ih6, by rw [ih7, hbuf2len]⟩
          · rw [ih3, hflat, List.drop_append_eq_append_drop, hsegfull_len,
              List.drop_eq_nil_of_le
                (show ((e.bytes.drop e.off).take e.len).length ≤ remaining by
                  rw [hsegfull_len]; omega),
              List.nil_append]
            congr 1
            omega
          · rw [ih4]
            have hassoc : dpos + (filled + copy)
                = dpos + filled + ((e.bytes.drop e.off).take copy).length := by
              rw [hseg_len]
              omega
            have htakeflat : (flattenQ (e :: rest)).take remaining
                = (e.bytes.drop e.off).take e.len ++ (flattenQ rest).take (remaining - e.len) := by
              rw [hflat, List.take_append_eq_append_take, hsegfull_len]
              congr 1
              exact List.take_of_length_le (by rw [hsegfull_len]; omega)
            rw [hassoc, writeAt_append _ _ _ _
              (by rw [hseg_len]
                  have := List.length_take_le (remaining - copy) (flattenQ rest)
                  omega), htakeflat]
            have hsegeq : (e.bytes.drop e.off).take copy = (e.bytes.drop e.off).take e.len := by
              rw [hce]
            rw [hsegeq, hce]
        · rw [hred, if_neg hce]
          have hcr : copy = remaining := by omega
          have hre : remaining < e.len := by omega
          have hinv2 : invQ ({ e with off := e.off + copy, len := e.len - copy } :: rest) := by
            intro x hx
            rcases List.mem_cons.mp hx with hx1 | hx2
            · subst hx1
              constructor
              · show 0 < e.len - copy
                omega
              · show e.off + copy + (e.len - copy) ≤ e.bytes.length
                omega
            · exact hinvrest x hx2
          obtain ⟨ih1, ih2, ih3, ih4, ih5, ih6, ih7⟩ := ih
            ({ e with off := e.off + copy, len := e.len - copy } :: rest)
            (qs - copy)
            (writeAt buf (dpos + filled) ((e.bytes.drop e.off).take copy)) dpos
            (filled + copy) (remaining - copy) (by omega) (by omega)
            (by simp only [sumLen, List.map_cons, List.sum_cons] at hsumcons ⊢; omega)
            hinv2 (by rw [hbuf2len]; omega)
          refine ⟨by rw [ih1]; omega, by rw [ih2]; omega, ?_, ?_,
            by rw [ih5]; omega, ih6, by rw [ih7, hbuf2len]⟩
          · rw [ih3]
            have h0 : remaining - copy = 0 := by omega
            rw [h0, List.drop_zero, hflat, List.drop_append_eq_append_drop, hsegfull_len]
            have h1 : remaining - e.len = 0 := by omega
            rw [h1, List.drop_zero]
            show flattenQ _ = _
            simp only [flattenQ, List.flatMap_cons]
            congr 1
            rw [List.drop_take, List.drop_drop]
            have harg1 : e.len - copy = e.len - remaining := by omega
            have harg2 : e.off + copy = e.off + remaining := by omega
            rw [harg1, harg2]
          · rw [ih4]
            have h0 : remaining - copy = 0 := by omega
            rw [h0, List.take_zero, writeAt_nil, hflat, List.take_append_eq_append_take,
              hsegfull_len]
            have h1 : remaining - e.len = 0 := by omega
            rw [h1, List.take_zero, List.append_nil, hseg_take]
            congr 2

theorem flattenQ_length (q : List QEntry) (hinv : invQ q) :
    (flattenQ q).length = sumLen q := by
  induction q with
  | nil => rfl
  | cons e rest ih =>
    have he := hinv e (List.mem_cons_self e rest)
    have hrest : invQ rest := fun x hx => hinv x (List.mem_cons_of_mem e hx)
    simp only [flattenQ, List.flatMap_cons, List.length_append, sumLen, List.map_cons,
      List.sum_cons]
    rw [seg_length e he.2]
    have := ih hrest
    simp only [flattenQ, sumLen] at this
    omega

theorem fill_fresh_spec (c : ByteCtrl) (v : Nat) (hv : 0 < v) (hqs : 0 < c.queue_size)
    (hsum : c.queue_size = sumLen c.queue) (hinv : invQ c.queue) :
    (ByteStreamController.fill_pull_into_descriptor c
        ⟨List.replicate v 0, 0, v, 0, 1, .Byob⟩).2.2 = true
    ∧ (ByteStreamController.fill_pull_into_descriptor c
        ⟨List.replicate v 0, 0, v, 0, 1, .Byob⟩).2.1.filled = min c.queue_size v
    ∧ (ByteStreamController.fill_pull_into_descriptor c
        ⟨List.replicate v 0, 0, v, 0, 1, .Byob⟩).2.1.element = 1
    ∧ (ByteStreamController.fill_pull_into_descriptor c
        ⟨List.replicate v 0, 0, v, 0, 1, .Byob⟩).2.1.offset = 0
    ∧ ((ByteStreamController.fill_pull_into_descriptor c
        ⟨List.replicate v 0, 0, v, 0, 1, .Byob⟩).2.1.buffer).take (min c.queue_size v)
        = (flattenQ c.queue).take (min c.queue_size v)
    ∧ (ByteStreamController.fill_pull_into_descriptor c
        ⟨List.replicate v 0, 0, v, 0, 1, .Byob⟩).1.queue_size
        = c.queue_size - min c.queue_size v
    ∧ flattenQ (ByteStreamController.fill_pull_into_descriptor c
        ⟨List.replicate v 0, 0, v, 0, 1, .Byob⟩).1.queue
        = (flattenQ c.queue).drop (min c.queue_size v)
    ∧ (ByteStreamController.fill_pull_into_descriptor c
        ⟨List.replicate v 0, 0, v, 0, 1, .Byob⟩).1.queue_size
        = sumLen (ByteStreamController.fill_pull_into_descriptor c
            ⟨List.replicate v 0, 0, v, 0, 1, .Byob⟩).1.queue
    ∧ invQ (ByteStreamController.fill_pull_into_descriptor c
        ⟨List.replicate v 0, 0, v, 0, 1, .Byob⟩).1.queue
    ∧ (ByteStreamController.fill_pull_into_descriptor c
        ⟨List.replicate v 0, 0, v, 0, 1, .Byob⟩).1.pending_descriptors
        = c.pending_descriptors
    ∧ (ByteStreamController.fill_pull_into_descriptor c
        ⟨List.replicate v 0, 0, v, 0, 1, .Byob⟩).1.close_requested
        = c.close_requested
    ∧ (ByteStreamController.fill_pull_into_descriptor c
        ⟨List.replicate v 0, 0, v, 0, 1, .Byob⟩).1.started
        = c.started := by
  have hflatlen : (flattenQ c.queue).length = c.queue_size := by
    rw [flattenQ_length c.queue hinv, hsum]
  have hm : min c.queue_size v ≤ c.queue_size := Nat.min_le_left _ _
  have hmv : min c.queue_size v ≤ v := Nat.min_le_right _ _
  have hm1 : 0 < min c.queue_size v := by omega
  obtain ⟨l1, l2, l3, l4, l5, l6, l7⟩ := fillLoop_spec (min c.queue_size v + 1) c.queue
    c.queue_size (List.replicate v 0) 0 0 (min c.queue_size v)
    (by omega) hm hsum hinv (by simp)
  have hred : ByteStreamController.fill_pull_into_descriptor c
      ⟨List.replicate v 0, 0, v, 0, 1, .Byob⟩
      = ({ c with
            queue := (fillLoop (min c.queue_size v + 1) c.queue c.queue_size
              (List.replicate v 0) 0 0 (min c.queue_size v)).1,
            queue_size := (fillLoop (min c.queue_size v + 1) c.queue c.queue_size
              (List.replicate v 0) 0 0 (min c.queue_size v)).2.1 },
         { buffer := (fillLoop (min c.queue_size v + 1) c.queue c.queue_size
              (List.replicate v 0) 0 0 (min c.queue_size v)).2.2.1,
           offset := 0, length := v,
           filled := (fillLoop (min c.queue_size v + 1) c.queue c.queue_size
              (List.replicate v 0) 0 0 (min c.queue_size v)).2.2.2,
           element := 1, kind := .Byob }, true) := by
    unfold ByteStreamController.fill_pull_into_descriptor
    simp only [Nat.mod_one, Nat.zero_add, Nat.sub_zero, Nat.zero_mod, Nat.sub_self, ite_self]
    simp [hm1]
  have hslen : ((flattenQ c.queue).take (min c.queue_size v)).length
      = min c.queue_size v := by
    rw [List.length_take, hflatlen]
    omega
  rw [hred]
  refine ⟨rfl, ?_, rfl, rfl, ?_, ?_, ?_, ?_, l6, rfl, rfl, rfl⟩
  · simpa using l1
  · rw [l4, writeAt]
    simp [List.take_append_eq_append_take, hslen]
  · exact l2
  · exact l3
  · rw [l2, l5]


def byobInv (s : RStream) (c : ByteCtrl) : Prop :=
  s.controller = .byteC c ∧ s.reader_kind = .Byob ∧ s.state = .Readable
  ∧ c.pending_descriptors = [] ∧ c.close_requested = false ∧ c.started = false
  ∧ c.queue_size = sumLen c.queue ∧ invQ c.queue

def byobDrain (s : RStream) : List Nat → RStream × List (List Nat)
  | [] => (s, [])
  | v :: vs =>
    match ByobReader.read s v 1 with
    | (s1, .error _) => (s1, [])
    | (s1, .ok p) =>
      match s1.promises.get? p with
      | some (.resolved (.readResultBytes bs _)) =>
        let rest := byobDrain s1 vs
        (rest.1, bs :: rest.2)
      | _ => (s1, [])

theorem byobRead_drain_step (s : RStream) (c : ByteCtrl) (v : Nat)
    (hinv : byobInv s c) (hv : 0 < v) (hqs : 0 < c.queue_size) :
    ∃ s2 c2,
      ByobReader.read s v 1 = (s2, .ok s.promises.length)
      ∧ s2.promises.get? s.promises.length
          = some (.resolved (.readResultBytes
              ((flattenQ c.queue).take (min c.queue_size v)) false))
      ∧ byobInv s2 c2
      ∧ c2.queue_size = c.queue_size - min c.queue_size v
      ∧ flattenQ c2.queue = (flattenQ c.queue).drop (min c.queue_size v) := by
  obtain ⟨hc, hrk, hst, hpd, hcr, hstarted, hsum, hinvq⟩ := hinv
  obtain ⟨f1, f2, f3, f4, f5, f6, f7, f8, f9, f10, f11, f12⟩ :=
    fill_fresh_spec c v hv hqs hsum hinvq
  obtain ⟨ctrl, rk, reqs, cl, st, dist, serr, proms⟩ := s
  simp only at hc hrk hst
  subst hc hrk hst
  have hread : ByobReader.read ⟨.byteC c, .Byob, reqs, cl, .Readable, dist, serr, proms⟩ v 1
      = (settleIn
          (RStream.setByteCtrl ⟨.byteC c, .Byob, reqs, cl, .Readable, true, serr,
              proms ++ [.pending]⟩
            (ByteStreamController.fill_pull_into_descriptor c
              ⟨List.replicate v 0, 0, v, 0, 1, .Byob⟩).1)
          proms.length
          (.resolved (.readResultBytes ((flattenQ c.queue).take (min c.queue_size v)) false)),
        .ok proms.length) := by
    unfold ByobReader.read
    simp only [Nat.mul_one, newPromise]
    rw [if_neg (by simp), if_neg (by omega), if_neg (by omega)]
    rw [if_neg (by simp)]
    simp only [hpd, List.isEmpty_nil, Bool.not_true, Bool.false_eq_true, if_false,
      reduceCtorEq, if_pos hqs, f1, if_true]
    rw [if_neg (by simp [f11, hcr])]
    have hpull : ByteStreamController.pull_if_needed
        (RStream.setByteCtrl ⟨.byteC c, .Byob, reqs, cl, .Readable, true, serr,
            proms ++ [.pending]⟩
          (ByteStreamController.fill_pull_into_descriptor c
            ⟨List.replicate v 0, 0, v, 0, 1, .Byob⟩).1)
        = RStream.setByteCtrl ⟨.byteC c, .Byob, reqs, cl, .Readable, true, serr,
            proms ++ [.pending]⟩
          (ByteStreamController.fill_pull_into_descriptor c
            ⟨List.replicate v 0, 0, v, 0, 1, .Byob⟩).1 := by
      unfold ByteStreamController.pull_if_needed RStream.setByteCtrl
      simp [ByteStreamController.should_call_pull, f12, hstarted]
    rw [hpull]
    rw [f4, f3]
    simp only [List.drop_zero, Nat.one_mul, Nat.div_one]
    rw [f2, f5]
  refine ⟨_, (ByteStreamController.fill_pull_into_descriptor c
    ⟨List.replicate v 0, 0, v, 0, 1, .Byob⟩).1, hread, ?_, ?_, f6, f7⟩
  · simp only [settleIn, RStream.setByteCtrl]
    apply settle_get_self
    simp [List.get?_eq_getElem?]
  · exact ⟨rfl, rfl, rfl, by rw [f10]; exact hpd, by rw [f11]; exact hcr,
      by rw [f12]; exact hstarted, f8, f9⟩

theorem byobRead_empty_step (s : RStream) (c : ByteCtrl) (v : Nat)
    (hinv : byobInv s c) (hv : 0 < v) (hq0 : c.queue_size = 0) :
    ∃ s2, ByobReader.read s v 1 = (s2, .ok s.promises.length)
      ∧ s2.promises.get? s.promises.length = some .pending := by
  obtain ⟨hc, hrk, hst, hpd, hcr, hstarted, hsum, hinvq⟩ := hinv
  obtain ⟨ctrl, rk, reqs, cl, st, dist, serr, proms⟩ := s
  simp only at hc hrk hst
  subst hc hrk hst
  have hread : ByobReader.read ⟨.byteC c, .Byob, reqs, cl, .Readable, dist, serr, proms⟩ v 1
      = (⟨.byteC { c with pending_descriptors :=
            [⟨List.replicate v 0, 0, v, 0, 1, .Byob⟩] },
          .Byob, reqs ++ [proms.length], cl, .Readable, true, serr,
          proms ++ [.pending]⟩,
        .ok proms.length) := by
    unfold ByobReader.read
    simp only [Nat.mul_one, newPromise]
    rw [if_neg (by simp), if_neg (by omega), if_neg (by omega), if_neg (by simp)]
    simp only [hpd, List.isEmpty_nil, Bool.not_true, Bool.false_eq_true, if_false,
      reduceCtorEq, RStream.setByteCtrl, List.nil_append]
    rw [if_neg (by omega)]
    simp [ByteStreamController.pull_if_needed,
      ByteStreamController.should_call_pull, hstarted]
  refine ⟨_, hread, ?_⟩
  simp [List.get?_eq_getElem?]

theorem byobDrain_flatten (views : List Nat) : ∀ (s : RStream) (c : ByteCtrl),
    byobInv s c → (∀ v ∈ views, 0 < v) → c.queue_size ≤ views.sum →
    ((byobDrain s views).2).flatten = flattenQ c.queue := by
  induction views with
  | nil =>
    intro s c hinv _ hle
    simp only [List.sum_nil, Nat.le_zero] at hle
    have hlen : (flattenQ c.queue).length = 0 := by
      rw [flattenQ_length c.queue hinv.2.2.2.2.2.2.2, ← hinv.2.2.2.2.2.2.1]
      exact hle
    simp [byobDrain, List.eq_nil_of_length_eq_zero hlen]
  | cons v vs ih =>
    intro s c hinv hpos hle
    have hv : 0 < v := hpos v (by simp)
    by_cases hq0 : c.queue_size = 0
    · obtain ⟨s2, hr, hp⟩ := byobRead_empty_step s c v hinv hv hq0
      have hlen : (flattenQ c.queue).length = 0 := by
        rw [flattenQ_length c.queue hinv.2.2.2.2.2.2.2, ← hinv.2.2.2.2.2.2.1]
        exact hq0
      simp only [byobDrain, hr, hp]
      simp [List.eq_nil_of_length_eq_zero hlen]
    · obtain ⟨s2, c2, hr, hp, hinv2, hqs2, hflat2⟩ :=
        byobRead_drain_step s c v hinv hv (by omega)
      simp only [byobDrain, hr, hp]
      have hsum2 : c2.queue_size ≤ vs.sum := by
        rw [hqs2]
        simp only [List.sum_cons] at hle
        omega
      have hrest := ih s2 c2 hinv2 (fun w hw => hpos w (by simp [hw])) hsum2
      simp only [List.flatten_cons, hrest, hflat2]
      exact List.take_append_drop _ _

theorem byteEnqueue_step (s : RStream) (c : ByteCtrl) (chunk : List Nat)
    (hinv : byobInv s c) (hlen : 0 < chunk.length) :
    ∃ c2,
      ByteStreamController.enqueue s chunk = .ok (s.setByteCtrl c2)
      ∧ byobInv (s.setByteCtrl c2) c2
      ∧ flattenQ c2.queue = flattenQ c.queue ++ chunk
      ∧ c2.queue_size = c.queue_size + chunk.length
      ∧ (s.setByteCtrl c2).promises = s.promises := by
  obtain ⟨hc, hrk, hst, hpd, hcr, hstarted, hsum, hinvq⟩ := hinv
  obtain ⟨ctrl, rk, reqs, cl, st, dist, serr, proms⟩ := s
  simp only at hc hrk hst
  subst hc hrk hst
  refine ⟨{ c with
              queue := c.queue ++ [⟨chunk, 0, chunk.length⟩],
              queue_size := c.queue_size + chunk.length }, ?_, ?_, ?_, ?_, rfl⟩
  · unfold ByteStreamController.enqueue
    simp only []
    rw [if_neg (by omega)]
    rw [if_pos (by simp [ByteStreamController.can_close_or_enqueue, hcr])]
    simp only [hpd, RStream.setByteCtrl]
    simp [ByteStreamController.processDescriptors, ByteStreamController.pull_if_needed,
      ByteStreamController.should_call_pull, hstarted, hpd]
  · refine ⟨rfl, rfl, rfl, hpd, hcr, hstarted, ?_, ?_⟩
    · simp only [sumLen, List.map_append, List.sum_append, List.map_cons, List.sum_cons,
        List.map_nil, List.sum_nil]
      simp only [sumLen] at hsum
      omega
    · intro e he
      rcases List.mem_append.mp he with h1 | h1
      · exact hinvq e h1
      · simp only [List.mem_singleton] at h1
        subst h1
        constructor
        · exact hlen
        · simp
  · simp only [flattenQ, List.flatMap_append, List.flatMap_cons, List.flatMap_nil,
      List.drop_zero, List.take_length, List.append_nil]
  · rfl

def byteEnqueueAll (s : RStream) : List (List Nat) → Except Err RStream
  | [] => .ok s
  | ch :: rest =>
    match ByteStreamController.enqueue s ch with
    | .error e => .error e
    | .ok s1 => byteEnqueueAll s1 rest

theorem byteEnqueueAll_spec (chunks : List (List Nat)) : ∀ (s : RStream) (c : ByteCtrl),
    byobInv s c → (∀ ch ∈ chunks, 0 < ch.length) →
    ∃ s2 c2, byteEnqueueAll s chunks = .ok s2 ∧ byobInv s2 c2
      ∧ flattenQ c2.queue = flattenQ c.queue ++ chunks.flatten
      ∧ c2.queue_size = c.queue_size + (chunks.map List.length).sum := by
  induction chunks with
  | nil =>
    intro s c hinv _
    exact ⟨s, c, rfl, hinv, by simp, by simp⟩
  | cons ch rest ih =>
    intro s c hinv hpos
    obtain ⟨c1, hr, hinv1, hflat1, hqs1, _⟩ :=
      byteEnqueue_step s c ch hinv (hpos ch (by simp))
    obtain ⟨s2, c2, hr2, hinv2, hflat2, hqs2⟩ :=
      ih (s.setByteCtrl c1) c1 hinv1 (fun w hw => hpos w (by simp [hw]))
    refine ⟨s2, c2, ?_, hinv2, ?_, ?_⟩
    · simp only [byteEnqueueAll, hr]
      exact hr2
    · rw [hflat2, hflat1]
      simp
    · rw [hqs2, hqs1]
      simp only [List.map_cons, List.sum_cons]
      omega

/-- C7: for every ByteStream controller holding a BYOB reader and every
partition of a total byte count into `N` enqueue calls of non-empty
sub-buffers of arbitrary lengths, followed by repeated `read(view)` calls
whose view capacities add up to at least the total: every enqueue succeeds,
and the byte sequences delivered to the BYOB reader, concatenated in order,
are exactly the concatenation of the enqueued chunks — every byte is
delivered exactly once, none duplicated, none dropped — so the sum of
delivered byte counts equals the total enqueued byte count.  The
`remaining`/`filled`/`queue_size` accounting of `fill_pull_into_descriptor`
copies each queued byte into exactly one descriptor position. -/
theorem c7_byob_byte_accounting (chunks : List (List Nat)) (views : List Nat)
    (s0 : RStream) (c0 : ByteCtrl)
    (hinv : byobInv s0 c0) (hq0 : c0.queue = [])
    (hch : ∀ ch ∈ chunks, 0 < ch.length) (hv : ∀ v ∈ views, 0 < v)
    (htot : (chunks.map List.length).sum ≤ views.sum) :
    ∃ s1, byteEnqueueAll s0 chunks = .ok s1
      ∧ ((byobDrain s1 views).2).flatten = chunks.flatten
      ∧ (((byobDrain s1 views).2).map List.length).sum
          = (chunks.map List.length).sum := by
  obtain ⟨s1, c1, henq, hinv1, hflat1, hqs1⟩ := byteEnqueueAll_spec chunks s0 c0 hinv hch
  have hq0' : flattenQ c0.queue = [] := by rw [hq0]; rfl
  have hqs0 : c0.queue_size = 0 := by
    rw [hinv.2.2.2.2.2.2.1, hq0]; rfl
  have hflat : flattenQ c1.queue = chunks.flatten := by
    rw [hflat1, hq0', List.nil_append]
  have hdr := byobDrain_flatten views s1 c1 hinv1 hv (by omega)
  refine ⟨s1, henq, ?_, ?_⟩
  · rw [hdr, hflat]
  · have h1 : (((byobDrain s1 views).2).flatten).length = (chunks.flatten).length := by
      rw [hdr, hflat]
    rw [List.length_flatten, List.length_flatten] at h1
    exact h1

def c7C : ByteCtrl :=
  { hasStart := false, hasPull := false, hasCancel := false,
    auto_allocate_chunk_size := 0, high_water_mark := 0, started := false,
    pulling := false, pull_again := false, close_requested := false,
    pending_descriptors := [], queue := [], queue_size := 0, pullCalls := 0 }

def c7S : RStream :=
  { controller := .byteC c7C, reader_kind := .Byob, requests := [], closed := 0,
    state := .Readable, disturbed := false, stored_error := none, promises := [.pending] }

/-- C7 witness: two chunks `[1,2,3]` and `[4,5]` drained by three
2-byte BYOB reads come back as exactly `[1,2,3,4,5]`. -/
theorem c7_byob_byte_accounting_witness :
    ∃ s1, byteEnqueueAll c7S [[1, 2, 3], [4, 5]] = .ok s1
      ∧ ((byobDrain s1 [2, 2, 2]).2).flatten
          = ([[1, 2, 3], [4, 5]] : List (List Nat)).flatten
      ∧ (((byobDrain s1 [2, 2, 2]).2).map List.length).sum
          = (([[1, 2, 3], [4, 5]] : List (List Nat)).map List.length).sum :=
  c7_byob_byte_accounting [[1, 2, 3], [4, 5]] [2, 2, 2] c7S c7C
    ⟨rfl, rfl, rfl, rfl, rfl, rfl, rfl, by simp [invQ, c7C]⟩ rfl (by decide) (by decide)
    (by decide)

end Spiderfire
